import Mathlib

/-!
# Verification of the `search-pdf-deep` search core (`pdf_search_core.py`)

This file gives a shallow embedding of the pure search-orchestration core of
the repository (`src/pdf_search_core.py`) and proves the frozen claims about
it.  Python strings are modelled as `List Char`; the external collaborators
(the PyMuPDF document library, the pytesseract OCR engine, the filesystem and
the `re` regex parser for raw regex-mode queries) are modelled as an explicit
environment of oracles (`Env`), and every external call made by `search_pdfs`
is recorded in an event trace so that ordering claims (validation before I/O,
cancellation polling, progress emission) can be stated and proved.
-/

/-! ## Whitespace model

Python's `re.sub(r"\s+", " ", s)` and `str.strip()` act on whitespace
characters; on the ASCII range (`\s` = space, tab, newline, carriage return,
form feed, vertical tab) we model them with `pyIsSpace`. -/

/-- Whitespace as matched by Python's `\s` (ASCII fragment):
space, tab, newline, carriage return, vertical tab, form feed. -/
def pyIsSpace (c : Char) : Bool :=
  c == ' ' || c == '\t' || c == '\n' || c == '\r' || c == '\x0b' || c == '\x0c'

/-- Models `re.sub(r"\s+", " ", s)` scanning left to right; the flag records
whether the scanner is inside a whitespace run, so the first character of
each maximal run becomes one space and the rest of the run is dropped. -/
def collapseWsGo : Bool → List Char → List Char
  | _, [] => []
  | inRun, c :: cs =>
    if pyIsSpace c then
      if inRun then collapseWsGo true cs else ' ' :: collapseWsGo true cs
    else c :: collapseWsGo false cs

/-- Models `re.sub(r"\s+", " ", s)`: every maximal run of whitespace is
replaced by a single space. -/
def collapseWs (s : List Char) : List Char := collapseWsGo false s

/-- Models Python `str.strip()`: remove leading and trailing whitespace. -/
def pyStrip (s : List Char) : List Char :=
  ((s.dropWhile pyIsSpace).reverse.dropWhile pyIsSpace).reverse

/-- `normalize_whitespace` (pdf_search_core.py line 37-38):
`re.sub(r"\s+", " ", s).strip()`. -/
def normalize_whitespace (s : List Char) : List Char :=
  pyStrip (collapseWs s)

/-- `make_snippet` (pdf_search_core.py lines 41-44).  `start`/`stop` are the
match bounds (`stop` renders the Python parameter `end`, a Lean keyword);
`text[lo:hi]` is `(text.drop lo).take (hi - lo)`.  Note `max 0 (start - radius)`
is `start - radius` on `Nat`. -/
def make_snippet (text : List Char) (start stop : Nat) (radius : Nat := 70) :
    List Char :=
  let lo := start - radius
  let hi := min text.length (stop + radius)
  normalize_whitespace ((text.drop lo).take (hi - lo))

/-! ## Regex model

`compile_pattern` (lines 47-53) builds a `re.Pattern`.  We model the compiled
pattern as a small regex AST together with matching semantics.  The `re.DOTALL`
flag the source always sets is baked into the semantics of `dot` (it matches
every character, newlines included); `re.IGNORECASE` is the boolean carried by
`Pattern`.  Raw regex-mode parsing (`re.compile(query, ...)` on an arbitrary
query string) is an external facility and is modelled as an oracle in `Env`;
the literal path `re.compile(re.escape(query), ...)` has known semantics and
is modelled by `reEscape` below. -/

inductive Regex where
  | fail : Regex
  | eps : Regex
  | char : Char → Regex
  | dot : Regex
  | concat : Regex → Regex → Regex
  | alt : Regex → Regex → Regex
  | star : Regex → Regex
  deriving DecidableEq, Repr

/-- One-character comparison under the pattern's flags: with `re.IGNORECASE`
the characters are compared case-folded (modelled by `Char.toLower`, exact on
ASCII), otherwise exactly. -/
def charMatch (ic : Bool) (p c : Char) : Bool :=
  if ic then p.toLower == c.toLower else p == c

/-- Case-folding applied by the `ic` flag. -/
def foldCase (ic : Bool) (c : Char) : Char :=
  if ic then c.toLower else c

/-- The lengths of the matches of `r` against a prefix of `s`, in the
backtracking preference order of a Perl-style engine (alternation tries its
left branch first, `star` is greedy).  `dot` matches any character because the
source always compiles with `re.DOTALL`.  `fuel` bounds the recursion depth
(exhausted fuel reports no match); for the escaped-literal patterns this
development evaluates, any fuel exceeding the subject length is enough. -/
def matchLens (ic : Bool) : Nat → Regex → List Char → List Nat
  | 0, _, _ => []
  | _ + 1, .fail, _ => []
  | _ + 1, .eps, _ => [0]
  | _ + 1, .char _, [] => []
  | _ + 1, .char p, c :: _ => if charMatch ic p c then [1] else []
  | _ + 1, .dot, [] => []
  | _ + 1, .dot, _ :: _ => [1]
  | fuel + 1, .concat r1 r2, s =>
      (matchLens ic fuel r1 s).flatMap
        (fun n => (matchLens ic fuel r2 (s.drop n)).map (n + ·))
  | fuel + 1, .alt r1 r2, s => matchLens ic fuel r1 s ++ matchLens ic fuel r2 s
  | fuel + 1, .star r, s =>
      ((matchLens ic fuel r s).filter (0 < ·)).flatMap
        (fun n => (matchLens ic fuel (.star r) (s.drop n)).map (n + ·)) ++ [0]

/-- The length of the match the engine reports when anchored at position `i`
of `s`, if any (the first length in backtracking preference order). -/
def matchLenAt (ic : Bool) (r : Regex) (s : List Char) (i : Nat) : Option Nat :=
  (matchLens ic (s.length + 1) r (s.drop i)).head?

/-- The scan loop of `pattern.finditer(text)`: try each position left to
right, emit each non-overlapping match `(start, stop)` and resume after it
(advancing at least one position).  `fuel` bounds the scan; `s.length + 2`
is always enough. -/
def findAllFrom (ic : Bool) (r : Regex) (s : List Char) :
    Nat → Nat → List (Nat × Nat)
  | _, 0 => []
  | i, fuel + 1 =>
    if s.length < i then []
    else
      match matchLenAt ic r s i with
      | some n => (i, i + n) :: findAllFrom ic r s (i + max n 1) fuel
      | none => findAllFrom ic r s (i + 1) fuel

/-- `pattern.finditer(text)` as the list of `(start, stop)` spans of the
non-overlapping, left-to-right matches. -/
def finditer (ic : Bool) (r : Regex) (s : List Char) : List (Nat × Nat) :=
  findAllFrom ic r s 0 (s.length + 2)

/-- Models `re.compile(re.escape(query), flags)`: `re.escape` backslash-escapes
every character of the query that could be a metacharacter, and the regex
parser turns each (escaped or ordinary) character into a one-character literal
node, so the compiled pattern is the concatenation of one literal-character
node per query character — no character retains pattern-language meaning. -/
def reEscape (q : List Char) : Regex :=
  q.foldr (fun c r => .concat (.char c) r) .eps

/-- A compiled `re.Pattern`: the AST plus the `re.IGNORECASE` flag
(`re.DOTALL` is always set by the source and is baked into `dot`). -/
structure Pattern where
  re : Regex
  ic : Bool
  deriving DecidableEq, Repr

/-- `compile_pattern` (pdf_search_core.py lines 47-53).  `reComp` is the
external `re.compile` parsing facility used for raw regex-mode queries, which
may reject a malformed pattern (`re.error`, modelled as `.error ()`); the
literal branch escapes the query and cannot fail. -/
def compile_pattern (reComp : List Char → Except Unit Regex)
    (query : List Char) (use_regex ignore_case : Bool) :
    Except Unit Pattern :=
  if use_regex then
    (reComp query).map (fun r => { re := r, ic := ignore_case })
  else
    .ok { re := reEscape query, ic := ignore_case }

/-! ## Data model and external environment -/

/-- `Match` (pdf_search_core.py lines 21-26): one hit.  Paths are modelled as
their resolved path strings. -/
structure Match where
  pdf_path : List Char
  page_number_1based : Nat
  snippet : List Char
  used_ocr : Bool := false
  deriving DecidableEq, Repr

/-- `Progress` (pdf_search_core.py lines 29-34): one progress snapshot. -/
structure Progress where
  processed : Nat
  total : Nat
  current_file : Option (List Char) := none
  matches_found : Nat := 0
  deriving DecidableEq, Repr

instance instDecEqExcept {e a : Type} [DecidableEq e] [DecidableEq a] :
    DecidableEq (Except e a) := fun x y =>
  match x, y with
  | .error u, .error v =>
    if h : u = v then .isTrue (congrArg Except.error h)
    else .isFalse (fun he => h (Except.error.inj he))
  | .ok u, .ok v =>
    if h : u = v then .isTrue (congrArg Except.ok h)
    else .isFalse (fun he => h (Except.ok.inj he))
  | .error _, .ok _ => .isFalse (fun he => Except.noConfusion he)
  | .ok _, .error _ => .isFalse (fun he => Except.noConfusion he)

/-- One page of an opened document, as the external PyMuPDF / pytesseract
oracles answer for it: the result of `page.get_text("text")` (which may raise,
modelled by `.error`), and the result of the rasterize-plus-OCR pipeline of
`_ocr_page` when the OCR libraries are present (which may also raise). -/
structure PageData where
  extractResult : Except Unit (List Char)
  ocrResult : Except Unit (List Char)
  deriving DecidableEq, Repr

/-- One file the filesystem reports: its resolved path string and what
`fitz.open` answers for it — failure, or the list of its pages. -/
structure DocData where
  path : List Char
  openResult : Except Unit (List PageData)
  deriving DecidableEq, Repr

/-- The environment of external collaborators of one `search_pdfs` run:
module availability flags resolved at import time, the filesystem's answers to
`folder.glob`/`folder.rglob`, the `re.compile` parsing facility for raw
regex-mode queries, the `should_cancel` callback (its `n`-th poll returns
`shouldCancel n`; a `None` callback is `fun _ => false`), and whether an
`on_progress` callback was supplied. -/
structure Env where
  fitzAvailable : Bool
  folderValid : Bool
  entriesRecursive : List DocData
  entriesTop : List DocData
  ocrAvailable : Bool
  reComp : List Char → Except Unit Regex
  shouldCancel : Nat → Bool
  hasProgress : Bool

/-- The keyword arguments of `search_pdfs` (lines 92-104). -/
structure SearchReq where
  query : List Char
  recursive : Bool := true
  use_regex : Bool := false
  ignore_case : Bool := true
  include_ocr : Bool := false
  ocr_dpi : Nat := 200
  snippet_radius : Nat := 70

/-- The request-level exceptions `search_pdfs` can raise: `RuntimeError` when
PyMuPDF is missing (line 112), `ValueError` for a bad folder (line 116) or an
empty query (line 120), `re.error` escaping from `compile_pattern`
(line 122). -/
inductive SErr where
  | noFitz : SErr
  | invalidFolder : SErr
  | emptyQuery : SErr
  | invalidPattern : SErr
  deriving DecidableEq, Repr

/-- The observable events of a run, in order: a cancellation poll and its
result, a `fitz.open` performed by the `count_total_pages` pre-pass, a
`fitz.open` of the main loop (line 158), a per-page text extraction
(line 163), a per-page rasterize-and-OCR attempt (line 168), and an
`on_progress` invocation with its `Progress` snapshot. -/
inductive Ev where
  | pollEv : Bool → Ev
  | openCount : List Char → Ev
  | openDoc : List Char → Ev
  | loadPage : List Char → Nat → Ev
  | ocrTry : List Char → Nat → Ev
  | prog : Progress → Ev
  deriving DecidableEq, Repr

/-! ## The search core -/

/-- `_page_needs_ocr` (lines 68-69). -/
def _page_needs_ocr (text : List Char) (min_chars : Nat := 25) : Bool :=
  (normalize_whitespace text).length < min_chars

/-- `_ocr_page` (lines 72-79): raises `RuntimeError` before any page I/O when
the OCR libraries are absent (lines 73-74); otherwise rasterizes the page and
runs OCR on it, which the environment answers with `pg.ocrResult`. -/
def _ocr_page (ocrAvailable : Bool) (pg : PageData) : Except Unit (List Char) :=
  if ocrAvailable then pg.ocrResult else .error ()

/-- The page-text resolution step of the page loop (lines 163-172): extract
the page text (an extraction error propagates to the per-document handler);
when OCR is requested and the text fails the sufficiency heuristic, attempt
OCR, replacing the text and setting `used_ocr` on success and silently keeping
the extracted text on any OCR error. -/
def resolve_page_text (include_ocr ocrAvailable : Bool) (pg : PageData) :
    Except Unit (List Char × Bool) :=
  match pg.extractResult with
  | .error e => .error e
  | .ok text =>
    if include_ocr && _page_needs_ocr text then
      match _ocr_page ocrAvailable pg with
      | .ok t => .ok (t, true)
      | .error _ => .ok (text, false)
    else .ok (text, false)

/-- The match-construction step of the page loop (lines 174-184): when the
resolved text is non-empty, one `Match` per `finditer` span, snippeted with
`make_snippet` and tagged with the resolver's `used_ocr` flag.  `pno` is the
1-based page number. -/
def page_matches (pat : Pattern) (path : List Char) (pno : Nat)
    (text : List Char) (usedOcr : Bool) (radius : Nat) : List Match :=
  if text = [] then []
  else
    (finditer pat.ic pat.re text).map (fun se =>
      { pdf_path := path
        page_number_1based := pno
        snippet := make_snippet text se.1 se.2 radius
        used_ocr := usedOcr })

/-- Lexicographic order on path strings, modelling how `sorted` compares
resolved `Path` objects. -/
def pathLe : List Char → List Char → Bool
  | [], _ => true
  | _ :: _, [] => false
  | a :: as, b :: bs => a < b || (a = b && pathLe as bs)

/-- The document order of a run: lexicographic by resolved path. -/
def docLe (d1 d2 : DocData) : Prop := pathLe d1.path d2.path = true

instance docLe.decidable : DecidableRel docLe := fun _ _ =>
  instDecidableEqBool _ _

/-- `iter_pdfs` (lines 56-60): the filesystem's `*.pdf` glob (recursive iff
requested), sorted lexicographically by resolved path.  The glob's extension
filter is modelled explicitly on the environment's directory entries. -/
def iter_pdfs (env : Env) (recursive : Bool) : List DocData :=
  let entries := if recursive then env.entriesRecursive else env.entriesTop
  (entries.filter (fun d => ".pdf".toList.isSuffixOf d.path)).insertionSort docLe

/-- `count_total_pages` (lines 82-89), with its trace of `fitz.open` calls:
sums `page_count` over the documents, propagating the first open failure
(the opens before and including the failing one have happened). -/
def count_total_pages : List DocData → Except Unit Nat × List Ev
  | [] => (.ok 0, [])
  | d :: ds =>
    match d.openResult with
    | .error _ => (.error (), [.openCount d.path])
    | .ok pgs =>
      let (r, tr) := count_total_pages ds
      (r.map (pgs.length + ·), .openCount d.path :: tr)

/-- The mutable state of a run: the poll counter indexing `shouldCancel`,
`processed_pages`, the accumulated matches (`found` renders the Python local
`matches`, a Lean keyword), and the event trace so far. -/
structure St where
  polls : Nat
  processed : Nat
  found : List Match
  trace : List Ev
  deriving Repr

/-- The `progress(...)` helper (lines 138-147): emit a `Progress` snapshot if
an `on_progress` callback was supplied. -/
def emitProg (hasCb : Bool) (total : Nat) (file : Option (List Char))
    (st : St) : St :=
  if hasCb then
    { st with trace := st.trace ++
        [.prog { processed := st.processed, total := total,
                 current_file := file, matches_found := st.found.length }] }
  else st

/-- The `cancelled()` helper (lines 135-136): poll the cancellation callback,
recording the poll and its result and advancing the poll counter. -/
def pollCancel (env : Env) (st : St) : Bool × St :=
  let c := env.shouldCancel st.polls
  (c, { st with polls := st.polls + 1, trace := st.trace ++ [.pollEv c] })

/-- The page loop of one opened document (lines 159-188).  `i` is the current
0-based page index.  Returns the updated state and whether the document was
aborted by a page-read exception (which line 190's handler catches).  A
positive cancellation poll breaks the loop without error.  After a processed
page, `processed_pages` is incremented and a progress snapshot is emitted
only when the total is known and `processed_pages` is a multiple of 5
(lines 186-188). -/
def runPages (pat : Pattern) (req : SearchReq) (env : Env) (total : Nat)
    (path : List Char) : Nat → List PageData → St → St × Bool
  | _, [], st => (st, false)
  | i, pg :: rest, st =>
    let (c, st) := pollCancel env st
    if c then (st, false)
    else
      let st := { st with trace := st.trace ++ [.loadPage path i] }
      match pg.extractResult with
      | .error _ => (st, true)
      | .ok text0 =>
        let st :=
          if req.include_ocr && _page_needs_ocr text0 then
            { st with trace := st.trace ++ [.ocrTry path i] }
          else st
        match resolve_page_text req.include_ocr env.ocrAvailable pg with
        | .error _ => (st, true)
        | .ok (text, usedOcr) =>
          let ms := page_matches pat path (i + 1) text usedOcr req.snippet_radius
          let st := { st with found := st.found ++ ms,
                              processed := st.processed + 1 }
          let st :=
            if 0 < total && st.processed % 5 == 0 then
              emitProg env.hasProgress total (some path) st
            else st
          runPages pat req env total path (i + 1) rest st

/-- The document loop (lines 151-193): poll cancellation before each document
(a positive poll breaks the whole loop), emit a progress snapshot for the
document, open it, walk its pages, and on an open or read failure emit the
`except` handler's progress snapshot (lines 190-193) and continue with the
next document. -/
def runDocs (pat : Pattern) (req : SearchReq) (env : Env) (total : Nat) :
    List DocData → St → St
  | [], st => st
  | d :: ds, st =>
    let (c, st) := pollCancel env st
    if c then st
    else
      let st := emitProg env.hasProgress total (some d.path) st
      let st := { st with trace := st.trace ++ [.openDoc d.path] }
      match d.openResult with
      | .error _ =>
        let st := emitProg env.hasProgress total (some d.path) st
        runDocs pat req env total ds st
      | .ok pages =>
        let (st, aborted) := runPages pat req env total d.path 0 pages st
        let st :=
          if aborted then emitProg env.hasProgress total (some d.path) st
          else st
        runDocs pat req env total ds st

/-- `search_pdfs` (lines 92-196): validate availability of PyMuPDF, the
folder and the query; compile the pattern; enumerate and sort the documents;
pre-scan the page counts (any failure degrades the total to 0, line 130-133);
then walk the documents, returning the accumulated matches.  The second
component is the trace of external events in program order. -/
def search_pdfs (env : Env) (req : SearchReq) :
    Except SErr (List Match) × List Ev :=
  if !env.fitzAvailable then (.error .noFitz, [])
  else if !(env.folderValid) then (.error .invalidFolder, [])
  else
    let q := pyStrip req.query
    if q = [] then (.error .emptyQuery, [])
    else
      match compile_pattern env.reComp q req.use_regex req.ignore_case with
      | .error _ => (.error .invalidPattern, [])
      | .ok pat =>
        let pdfs := iter_pdfs env req.recursive
        let (tpRes, tr0) :=
          if pdfs = [] then (.ok 0, []) else count_total_pages pdfs
        let total := match tpRes with | .ok n => n | .error _ => 0
        let st : St := { polls := 0, processed := 0, found := [], trace := tr0 }
        let st := emitProg env.hasProgress total none st
        let st := runDocs pat req env total pdfs st
        let st := emitProg env.hasProgress total none st
        (.ok st.found, st.trace)

/-! ## Specification-level abstractions used by the theorems -/

/-- The matches contributed by a page list starting at 0-based index `i`,
ignoring polling, progress and the trace: each page resolves its text and
contributes its `page_matches`; a page whose extraction raises ends the
document's contribution (the per-document handler catches the exception). -/
def walkPages (io avail : Bool) (pat : Pattern) (path : List Char)
    (radius : Nat) : Nat → List PageData → List Match
  | _, [] => []
  | i, pg :: rest =>
    match resolve_page_text io avail pg with
    | .error _ => []
    | .ok (t, u) =>
      page_matches pat path (i + 1) t u radius ++
        walkPages io avail pat path radius (i + 1) rest

/-- The matches contributed by one document: none if it fails to open,
otherwise the matches of its pages. -/
def docMatches (io avail : Bool) (pat : Pattern) (radius : Nat)
    (d : DocData) : List Match :=
  match d.openResult with
  | .error _ => []
  | .ok pages => walkPages io avail pat d.path radius 0 pages

/-- Literal-prefix test: does `q` match character-for-character (under the
case flag) at the head of `s`? -/
def litStarts (ic : Bool) : List Char → List Char → Bool
  | [], _ => true
  | _ :: _, [] => false
  | p :: ps, c :: cs => charMatch ic p c && litStarts ic ps cs

/-- Main-loop work events: a document open (line 158) or a page text
extraction (line 163).  The `count_total_pages` pre-scan opens
(`Ev.openCount`) are not work events: the pre-scan runs before the
cancellation-polled loop. -/
def isWork : Ev → Bool
  | .openDoc _ => true
  | .loadPage _ _ => true
  | _ => false

/-- Is this event a page extraction? -/
def isLoadEv : Ev → Bool
  | .loadPage _ _ => true
  | _ => false

/-- Is this event a progress-callback invocation? -/
def isProgEv : Ev → Bool
  | .prog _ => true
  | _ => false

/-- The number of progress-callback invocations recorded in a trace. -/
def numProg (tr : List Ev) : Nat := tr.countP isProgEv

/-- The number of progress-callback invocations whose snapshot reports
exactly `n` processed pages. -/
def numProgAt (n : Nat) (tr : List Ev) : Nat :=
  tr.countP (fun e => match e with
    | .prog p => p.processed == n
    | _ => false)

/-- The number of page extractions recorded in a trace. -/
def numLoad (tr : List Ev) : Nat := tr.countP isLoadEv

/-- The number of progress-callback invocations in a trace whose snapshot
names `p` as the current file (the document-entry snapshot of line 156, the
per-page snapshots of lines 186-188 and the `except` handler's report of
lines 190-193 all pass the document's path). -/
def numProgFile (p : List Char) (tr : List Ev) : Nat :=
  tr.countP (fun e => match e with
    | .prog pr => pr.current_file == some p
    | _ => false)

/-- The total page count of the documents in a list that open successfully. -/
def sumPages (ds : List DocData) : Nat :=
  (ds.map (fun d => match d.openResult with
    | .ok pgs => pgs.length
    | .error _ => 0)).sum

/-- Automaton step for the polling discipline.  State `some armed`: `armed`
records whether a negative cancellation poll has occurred since the last work
event; a work event while unarmed moves to the failure state `none`. -/
def gateStep : Option Bool → Ev → Option Bool
  | none, _ => none
  | some _, .pollEv false => some true
  | some armed, .pollEv true => some armed
  | some armed, .openDoc _ => if armed then some false else none
  | some armed, .loadPage _ _ => if armed then some false else none
  | some armed, _ => some armed

/-- Run the polling-discipline automaton over a trace. -/
def gateRun (s : Option Bool) (tr : List Ev) : Option Bool :=
  tr.foldl gateStep s

/-- The polling discipline of the trace: every main-loop document open and
every page extraction is preceded by a cancellation check (with result
`false`) that is fresher than any earlier work event — i.e. the flag is
checked before opening each document and between any two page steps. -/
def cancelChecked (tr : List Ev) : Prop := gateRun (some false) tr ≠ none

/-- Automaton step for cancellation promptness.  State `some seen`: `seen`
records whether some poll has returned `true`; any work event after that
moves to the failure state `none`. -/
def stopStep : Option Bool → Ev → Option Bool
  | none, _ => none
  | some _, .pollEv true => some true
  | some seen, e => if seen && isWork e then none else some seen

/-- Run the promptness automaton over a trace. -/
def stopRun (s : Option Bool) (tr : List Ev) : Option Bool :=
  tr.foldl stopStep s

/-- Cancellation promptness: once a poll has returned `true`, the trace
contains no further work event — no document is opened and no page is
extracted after cancellation is observed. -/
def noWorkAfterCancel (tr : List Ev) : Prop := stopRun (some false) tr ≠ none

/-- Invariant carried through the run for the polling discipline: the
automaton has not failed on the trace so far. -/
def GateInv (st : St) : Prop :=
  ∃ a, gateRun (some false) st.trace = some a

/-- Invariant carried through the run for cancellation promptness: the
automaton has not failed, and if cancellation has already been observed then
the cancellation flag is still set at the next poll index (which, for a
monotone flag, is automatic). -/
def StopInv (env : Env) (st : St) : Prop :=
  ∃ seen, stopRun (some false) st.trace = some seen ∧
    (seen = true → env.shouldCancel st.polls = true)

/-- The page-count pre-scan of `search_pdfs` (lines 128-133) as a standalone
abbreviation: its result and its trace of `fitz.open` calls. -/
def preScan (env : Env) (req : SearchReq) : Except Unit Nat × List Ev :=
  if iter_pdfs env req.recursive = [] then (.ok 0, [])
  else count_total_pages (iter_pdfs env req.recursive)

/-- The `total_pages` value of a run: the pre-scan's count, degraded to 0 on
failure. -/
def totalOf (env : Env) (req : SearchReq) : Nat :=
  match (preScan env req).1 with
  | .ok n => n
  | .error _ => 0

/-! ## Concrete fixtures for witnesses and counterexamples -/

/-- A regex-parsing oracle that rejects every raw pattern. -/
def rejectAll : List Char → Except Unit Regex := fun _ => .error ()

/-- A valid, empty folder environment used by request-error witnesses. -/
def envEmptyFolder : Env :=
  { fitzAvailable := true
    folderValid := true
    entriesRecursive := []
    entriesTop := []
    ocrAvailable := false
    reComp := rejectAll
    shouldCancel := fun _ => false
    hasProgress := false }

/-- A page whose extraction succeeds with the given text and whose OCR
attempt (when reachable) raises. -/
def pageOf (s : List Char) : PageData :=
  { extractResult := .ok s, ocrResult := .error () }

/-- A one-page document containing the word `hello`. -/
def docA : DocData :=
  { path := "/r/a.pdf".toList
    openResult := .ok [pageOf "hello world".toList] }

/-- Another one-page document containing the word `hello`. -/
def docB : DocData :=
  { path := "/r/b.pdf".toList
    openResult := .ok [pageOf "say hello".toList] }

/-- A document that fails to open. -/
def docBad : DocData :=
  { path := "/r/zbad.pdf".toList
    openResult := .error () }

/-- A two-page document with no occurrence of the test queries. -/
def docTwoPages : DocData :=
  { path := "/r/p.pdf".toList
    openResult := .ok [pageOf "aaa aaa".toList, pageOf "bbb bbb".toList] }

/-- A document whose first page reads fine (and contains the word `hello`)
but whose second page raises on text extraction — a mid-document read
failure caught by the per-document handler (lines 190-193). -/
def docReadFail : DocData :=
  { path := "/r/c.pdf".toList
    openResult := .ok [pageOf "hello there".toList,
      { extractResult := .error (), ocrResult := .error () }] }

/-- A one-page document whose page is sparse (below the OCR sufficiency
threshold); its OCR oracle data would answer, but in the test environment the
OCR capability is absent. -/
def sparseDoc : DocData :=
  { path := "/r/s.pdf".toList
    openResult := .ok
      [{ extractResult := .ok "Fig. 1".toList
         ocrResult := .ok "Revenue growth 12%".toList }] }

/-- A valid environment over the given directory entries, OCR unavailable,
never cancelled, progress callback supplied. -/
def envDocs (ds : List DocData) : Env :=
  { fitzAvailable := true
    folderValid := true
    entriesRecursive := ds
    entriesTop := ds
    ocrAvailable := false
    reComp := rejectAll
    shouldCancel := fun _ => false
    hasProgress := true }

/-- Like `envDocs`, but cancellation is requested from the third poll on
(i.e. right after the first document's first page). -/
def envCancelAfterFirstPage (ds : List DocData) : Env :=
  { fitzAvailable := true
    folderValid := true
    entriesRecursive := ds
    entriesTop := ds
    ocrAvailable := false
    reComp := rejectAll
    shouldCancel := fun n => decide (2 ≤ n)
    hasProgress := false }

/-- Literal search request for `hello` with the source's defaults. -/
def reqHello : SearchReq := { query := "hello".toList }

/-- Literal search request for `fig` with OCR requested. -/
def reqFig : SearchReq := { query := "fig".toList, include_ocr := true }

/-! ## General lemmas -/

theorem charMatch_foldCase (ic : Bool) (p c : Char) :
    charMatch ic p c = (foldCase ic p == foldCase ic c) := by
  cases ic <;> simp [charMatch, foldCase]

theorem matchLens_reEscape (ic : Bool) (q : List Char) :
    ∀ (fuel : Nat) (s : List Char), s.length < fuel →
      matchLens ic fuel (reEscape q) s =
        if litStarts ic q s then [q.length] else [] := by
  induction q with
  | nil =>
    intro fuel s hf
    cases fuel with
    | zero => omega
    | succ f => simp [reEscape, matchLens, litStarts]
  | cons p ps ih =>
    intro fuel s hf
    cases fuel with
    | zero => omega
    | succ f =>
      cases s with
      | nil =>
        cases f with
        | zero => simp [reEscape, matchLens, litStarts]
        | succ f2 => simp [reEscape, matchLens, litStarts]
      | cons c cs =>
        cases f with
        | zero =>
          simp only [List.length_cons] at hf
          omega
        | succ f2 =>
          show matchLens ic (f2 + 1 + 1) (.concat (.char p) (reEscape ps))
            (c :: cs) = _
          have hcs : cs.length < f2 + 1 := by
            simp only [List.length_cons] at hf
            omega
          by_cases h : charMatch ic p c = true
          · simp [matchLens, h, litStarts, ih (f2 + 1) cs hcs]
            cases hl : litStarts ic ps cs <;> simp [Nat.add_comm]
          · simp [matchLens, h, litStarts, Bool.eq_false_iff.mpr h]

theorem matchLenAt_reEscape (ic : Bool) (q s : List Char) (i : Nat) :
    matchLenAt ic (reEscape q) s i =
      if litStarts ic q (s.drop i) then some q.length else none := by
  unfold matchLenAt
  rw [matchLens_reEscape ic q (s.length + 1) (s.drop i)
    (by rw [List.length_drop]; omega)]
  split
  · rfl
  · rfl

theorem litStarts_iff (ic : Bool) (q : List Char) :
    ∀ s : List Char,
      litStarts ic q s = true ↔
        (q.length ≤ s.length ∧
          (s.take q.length).map (foldCase ic) = q.map (foldCase ic)) := by
  induction q with
  | nil => intro s; simp [litStarts]
  | cons p ps ih =>
    intro s
    cases s with
    | nil => simp [litStarts]
    | cons c cs =>
      simp only [litStarts, Bool.and_eq_true, ih cs, List.length_cons,
        List.take_succ_cons, List.map_cons, List.cons.injEq,
        Nat.succ_le_succ_iff, charMatch_foldCase, beq_iff_eq]
      constructor
      · rintro ⟨h1, h2, h3⟩
        exact ⟨h2, h1.symm, h3⟩
      · rintro ⟨h1, h2, h3⟩
        exact ⟨h2.symm, h1, h3⟩

theorem length_dropWhile_le (p : Char → Bool) (l : List Char) :
    (l.dropWhile p).length ≤ l.length := by
  induction l with
  | nil => simp [List.dropWhile]
  | cons c cs ih =>
    simp only [List.dropWhile, List.length_cons]
    split
    · exact Nat.le_succ_of_le ih
    · simp

theorem collapseWsGo_length_le (b : Bool) (s : List Char) :
    (collapseWsGo b s).length ≤ s.length := by
  induction s generalizing b with
  | nil => simp [collapseWsGo]
  | cons c cs ih =>
    simp only [collapseWsGo, List.length_cons]
    split
    · split
      · exact Nat.le_succ_of_le (ih true)
      · simpa using Nat.succ_le_succ (ih true)
    · simpa using Nat.succ_le_succ (ih false)

theorem collapseWs_length_le (s : List Char) :
    (collapseWs s).length ≤ s.length :=
  collapseWsGo_length_le false s

theorem pyStrip_length_le (s : List Char) : (pyStrip s).length ≤ s.length := by
  unfold pyStrip
  have h1 := length_dropWhile_le pyIsSpace s
  have h2 := length_dropWhile_le pyIsSpace (s.dropWhile pyIsSpace).reverse
  simp only [List.length_reverse] at *
  omega

theorem normalize_whitespace_length_le (s : List Char) :
    (normalize_whitespace s).length ≤ s.length := by
  unfold normalize_whitespace
  exact le_trans (pyStrip_length_le _) (collapseWs_length_le s)

theorem mem_findAllFrom (ic : Bool) (r : Regex) (s : List Char) :
    ∀ (fuel i0 : Nat) (se : Nat × Nat), se ∈ findAllFrom ic r s i0 fuel →
      matchLenAt ic r s se.1 = some (se.2 - se.1) ∧ se.1 ≤ se.2 := by
  intro fuel
  induction fuel with
  | zero => intro i0 se h; simp [findAllFrom] at h
  | succ f ih =>
    intro i0 se h
    rw [findAllFrom] at h
    split at h
    · simp at h
    · rename_i hle
      cases hm : matchLenAt ic r s i0 with
      | some n =>
        rw [hm] at h
        rcases List.mem_cons.mp h with h1 | h1
        · subst h1
          simpa using hm
        · exact ih _ se h1
      | none =>
        rw [hm] at h
        exact ih _ se h

/-! ## Claim theorems -/

/-- C1: For every query with `use_regex = false` and every text, the matcher
produced by `compile_pattern` matches exactly the occurrences of the query as
a literal substring — regex metacharacters in the query have no special
meaning (the pattern is the escaped literal), a match is reported at a
position iff the query occurs there character-for-character, every span
`finditer` reports is such a literal occurrence, and characters are compared
case-folded iff `ignore_case` is set (`foldCase false` is the identity,
`foldCase true` is lower-casing). -/
theorem c1_literal_query_matches_literal_substring
    (reComp : List Char → Except Unit Regex) (q text : List Char) (ic : Bool)
    (i n : Nat) (hq : q ≠ []) :
    compile_pattern reComp q false ic = .ok { re := reEscape q, ic := ic } ∧
    (matchLenAt ic (reEscape q) text i = some n ↔
      (n = q.length ∧ i + q.length ≤ text.length ∧
        ((text.drop i).take q.length).map (foldCase ic) =
          q.map (foldCase ic))) ∧
    (∀ se ∈ finditer ic (reEscape q) text,
        se.2 = se.1 + q.length ∧
        ((text.drop se.1).take q.length).map (foldCase ic) =
          q.map (foldCase ic)) ∧
    (∀ c, foldCase false c = c) ∧ (∀ c, foldCase true c = c.toLower) := by
  have hq1 : 1 ≤ q.length := by
    cases q with
    | nil => exact absurd rfl hq
    | cons a as => simp
  refine ⟨by simp [compile_pattern], ?_, ?_, fun c => rfl, fun c => rfl⟩
  · by_cases hl : litStarts ic q (text.drop i) = true
    · rw [matchLenAt_reEscape, if_pos hl]
      have hp := (litStarts_iff ic q (text.drop i)).mp hl
      rw [List.length_drop] at hp
      constructor
      · intro hsome
        injection hsome with hn
        exact ⟨hn.symm, by omega, hp.2⟩
      · intro h
        rw [h.1]
    · rw [matchLenAt_reEscape, if_neg hl]
      constructor
      · intro h; cases h
      · intro h
        exact absurd ((litStarts_iff ic q (text.drop i)).mpr
          ⟨by rw [List.length_drop]; omega, h.2.2⟩) hl
  · intro se hse
    obtain ⟨hm, hle⟩ := mem_findAllFrom ic (reEscape q) text _ 0 se hse
    rw [matchLenAt_reEscape] at hm
    split at hm
    · rename_i hl
      injection hm with hlen
      have hp := (litStarts_iff ic q (text.drop se.1)).mp hl
      exact ⟨by omega, hp.2⟩
    · cases hm

/-- Witness for C1 at `q = "a.b"`, `text = "xa.b"`, `ignore_case = false`:
the literal query containing metacharacters matches at position 1. -/
theorem c1_literal_query_matches_literal_substring_witness :
    ('a' :: '.' :: 'b' :: []) ≠ ([] : List Char) ∧
    matchLenAt false (reEscape ('a' :: '.' :: 'b' :: []))
      ('x' :: 'a' :: '.' :: 'b' :: []) 1 = some 3 :=
  ⟨by decide,
   ((c1_literal_query_matches_literal_substring rejectAll
      ('a' :: '.' :: 'b' :: []) ('x' :: 'a' :: '.' :: 'b' :: []) false 1 3
      (by decide)).2.1).mpr (by decide)⟩

/-- C2: For in-bounds match spans `start ≤ stop ≤ len(text)` and any radius,
`make_snippet` reads only the clamped window `text[start - radius .. min
(len text) (stop + radius)]` (whose bounds are within the text and contain
the match span), equals that window's whitespace-normalization, and its
length is at most `2 * radius + (stop - start)`. -/
theorem c2_make_snippet_window (text : List Char) (start stop radius : Nat)
    (h1 : start ≤ stop) (h2 : stop ≤ text.length) :
    (start - radius ≤ start ∧ stop ≤ min text.length (stop + radius) ∧
      min text.length (stop + radius) ≤ text.length) ∧
    make_snippet text start stop radius =
      normalize_whitespace ((text.drop (start - radius)).take
        (min text.length (stop + radius) - (start - radius))) ∧
    (make_snippet text start stop radius).length ≤
      2 * radius + (stop - start) := by
  refine ⟨⟨Nat.sub_le _ _, by omega, Nat.min_le_left _ _⟩, rfl, ?_⟩
  have hn := normalize_whitespace_length_le
    ((text.drop (start - radius)).take
      (min text.length (stop + radius) - (start - radius)))
  have hlen := List.length_take
    (min text.length (stop + radius) - (start - radius))
    (text.drop (start - radius))
  have hd := List.length_drop (start - radius) text
  show (normalize_whitespace ((text.drop (start - radius)).take
    (min text.length (stop + radius) - (start - radius)))).length ≤
      2 * radius + (stop - start)
  omega

/-- Witness for C2 at `text = "ab  cd e"`, `start = 2`, `stop = 4`,
`radius = 1`. -/
theorem c2_make_snippet_window_witness :
    2 ≤ 4 ∧ 4 ≤ ("ab  cd e".toList).length ∧
    (make_snippet "ab  cd e".toList 2 4 1).length ≤ 2 * 1 + (4 - 2) :=
  ⟨by decide, by decide,
   (c2_make_snippet_window "ab  cd e".toList 2 4 1 (by decide)
     (by decide)).2.2⟩

/-- C3: `search_pdfs` fails with a request-level error, returning before any
document is opened or read (indeed before any external event at all: the
trace is empty), whenever the folder is invalid, the query is empty after
trimming, or the regex-mode query fails to compile — pattern-compilation
failure propagates to the caller before any document I/O begins. -/
theorem c3_request_errors_before_any_document_io (env : Env) (req : SearchReq)
    (hf : env.fitzAvailable = true) :
    (env.folderValid = false →
      search_pdfs env req = (.error .invalidFolder, [])) ∧
    (env.folderValid = true → pyStrip req.query = [] →
      search_pdfs env req = (.error .emptyQuery, [])) ∧
    (env.folderValid = true → pyStrip req.query ≠ [] → req.use_regex = true →
      env.reComp (pyStrip req.query) = .error () →
      search_pdfs env req = (.error .invalidPattern, [])) := by
  refine ⟨?_, ?_, ?_⟩
  · intro hv
    simp [search_pdfs, hf, hv]
  · intro hv hq
    simp [search_pdfs, hf, hv, hq]
  · intro hv hq hr hc
    simp [search_pdfs, hf, hv, hq, compile_pattern, hr, hc, Except.map]

/-- Witness for C3: an unparsable regex-mode query `"("` over a valid folder
fails with `invalidPattern` and an empty trace. -/
theorem c3_request_errors_before_any_document_io_witness :
    search_pdfs envEmptyFolder { query := '(' :: [], use_regex := true } =
      (.error .invalidPattern, []) :=
  (c3_request_errors_before_any_document_io envEmptyFolder
    { query := '(' :: [], use_regex := true } rfl).2.2 rfl (by decide) rfl rfl

theorem resolve_page_text_extract_error (io avail : Bool) (pg : PageData)
    (h : pg.extractResult = .error ()) :
    resolve_page_text io avail pg = .error () := by
  rw [resolve_page_text, h]

theorem resolve_page_text_ok (io avail : Bool) (pg : PageData) (t : List Char)
    (h : pg.extractResult = .ok t) :
    resolve_page_text io avail pg =
      if io && _page_needs_ocr t then
        match _ocr_page avail pg with
        | .ok t2 => .ok (t2, true)
        | .error _ => .ok (t, false)
      else .ok (t, false) := by
  rw [resolve_page_text, h]

theorem resolve_page_text_noocr (avail : Bool) (pg : PageData) :
    resolve_page_text false avail pg =
      Except.map (fun t => (t, false)) pg.extractResult := by
  cases hE : pg.extractResult with
  | error e =>
    cases e
    rw [resolve_page_text_extract_error false avail pg hE]
    rfl
  | ok t =>
    rw [resolve_page_text_ok false avail pg t hE]
    rfl

theorem resolve_page_text_ocr_fail (io avail : Bool) (pg : PageData)
    (h : _ocr_page avail pg = .error ()) :
    resolve_page_text io avail pg =
      Except.map (fun t => (t, false)) pg.extractResult := by
  cases hE : pg.extractResult with
  | error e =>
    cases e
    rw [resolve_page_text_extract_error io avail pg hE]
    rfl
  | ok t =>
    rw [resolve_page_text_ok io avail pg t hE, h]
    split
    · rfl
    · rfl

theorem resolve_page_text_used_ocr_iff (io avail : Bool) (pg : PageData)
    (t : List Char) :
    resolve_page_text io avail pg = .ok (t, true) ↔
      (io = true ∧ avail = true ∧
        (∃ e, pg.extractResult = .ok e ∧ _page_needs_ocr e = true) ∧
        pg.ocrResult = .ok t) := by
  cases hE : pg.extractResult with
  | error e =>
    cases e
    rw [resolve_page_text_extract_error io avail pg hE]
    simp [hE]
  | ok e0 =>
    rw [resolve_page_text_ok io avail pg e0 hE]
    unfold _ocr_page
    cases io with
    | false => simp [hE]
    | true =>
      cases hn : _page_needs_ocr e0 with
      | false => simp [hE, hn]
      | true =>
        cases avail with
        | false => simp [hE, hn]
        | true =>
          cases hO : pg.ocrResult with
          | error u =>
            cases u
            simp [hE, hn, hO]
          | ok t2 => simp [hE, hn, hO]

theorem page_matches_used_ocr (pat : Pattern) (path : List Char) (pno : Nat)
    (t : List Char) (u : Bool) (radius : Nat) :
    ∀ m ∈ page_matches pat path pno t u radius, m.used_ocr = u := by
  intro m hm
  unfold page_matches at hm
  split at hm
  · simp at hm
  · obtain ⟨se, _, rfl⟩ := List.mem_map.mp hm
    rfl

theorem emitProg_found (hc : Bool) (total : Nat) (f : Option (List Char))
    (st : St) : (emitProg hc total f st).found = st.found := by
  unfold emitProg
  split
  · rfl
  · rfl

theorem emitProg_polls (hc : Bool) (total : Nat) (f : Option (List Char))
    (st : St) : (emitProg hc total f st).polls = st.polls := by
  unfold emitProg
  split
  · rfl
  · rfl

theorem emitProg_processed (hc : Bool) (total : Nat) (f : Option (List Char))
    (st : St) : (emitProg hc total f st).processed = st.processed := by
  unfold emitProg
  split
  · rfl
  · rfl

theorem runPages_found (pat : Pattern) (req : SearchReq) (env : Env)
    (total : Nat) (path : List Char)
    (hsc : ∀ n, env.shouldCancel n = false) :
    ∀ (pages : List PageData) (i : Nat) (st : St),
      ((runPages pat req env total path i pages st).1).found =
        st.found ++
          walkPages req.include_ocr env.ocrAvailable pat path
            req.snippet_radius i pages := by
  intro pages
  induction pages with
  | nil =>
    intro i st
    simp [runPages, walkPages]
  | cons pg rest ih =>
    intro i st
    rw [runPages, walkPages]
    simp only [pollCancel, hsc, Bool.false_eq_true, if_false]
    split
    · rename_i e heq
      rw [resolve_page_text_extract_error req.include_ocr env.ocrAvailable
        pg heq]
      simp
    · rename_i text0 heq
      rw [resolve_page_text_ok req.include_ocr env.ocrAvailable pg text0 heq]
      split
      · split
        · simp
        · simp
      · rw [ih]
        split
        · split
          · simp [emitProg_found, List.append_assoc]
          · simp [List.append_assoc]
        · split
          · simp [emitProg_found, List.append_assoc]
          · simp [List.append_assoc]

theorem runDocs_found (pat : Pattern) (req : SearchReq) (env : Env)
    (total : Nat) (hsc : ∀ n, env.shouldCancel n = false) :
    ∀ (ds : List DocData) (st : St),
      (runDocs pat req env total ds st).found =
        st.found ++
          ds.flatMap (docMatches req.include_ocr env.ocrAvailable pat
            req.snippet_radius) := by
  intro ds
  induction ds with
  | nil =>
    intro st
    simp [runDocs]
  | cons d rest ih =>
    intro st
    rw [runDocs]
    simp only [pollCancel, hsc, Bool.false_eq_true, if_false]
    split
    · rename_i e heqO
      rw [ih]
      simp [docMatches, heqO, emitProg_found]
    · rename_i pages heqO
      rw [ih]
      split
      · rw [emitProg_found, runPages_found pat req env total d.path hsc]
        simp [docMatches, heqO, emitProg_found, List.append_assoc]
      · rw [runPages_found pat req env total d.path hsc]
        simp [docMatches, heqO, emitProg_found, List.append_assoc]

theorem search_pdfs_matches (env : Env) (req : SearchReq) (pat : Pattern)
    (hf : env.fitzAvailable = true) (hv : env.folderValid = true)
    (hq : pyStrip req.query ≠ [])
    (hcomp : compile_pattern env.reComp (pyStrip req.query) req.use_regex
      req.ignore_case = .ok pat)
    (hsc : ∀ n, env.shouldCancel n = false) :
    (search_pdfs env req).1 =
      .ok ((iter_pdfs env req.recursive).flatMap
        (docMatches req.include_ocr env.ocrAvailable pat
          req.snippet_radius)) := by
  unfold search_pdfs
  rw [if_neg (by simp [hf]), if_neg (by simp [hv]), if_neg hq]
  split
  · rename_i heq
    rw [hcomp] at heq
    cases heq
  · rename_i pat1 heq
    rw [hcomp] at heq
    injection heq with h1
    subst h1
    simp only [emitProg_found]
    rw [runDocs_found pat req env _ hsc]
    simp [emitProg_found]

theorem walkPages_ocr_fail (io avail : Bool) (pat : Pattern)
    (path : List Char) (radius : Nat) :
    ∀ (pages : List PageData) (i : Nat),
      (∀ pg ∈ pages, _ocr_page avail pg = .error ()) →
      walkPages io avail pat path radius i pages =
        walkPages false avail pat path radius i pages := by
  intro pages
  induction pages with
  | nil => intro i h; rfl
  | cons pg rest ih =>
    intro i h
    rw [walkPages, walkPages,
      resolve_page_text_ocr_fail io avail pg (h pg (List.mem_cons_self pg rest)),
      resolve_page_text_noocr avail pg]
    cases hE : pg.extractResult with
    | error e => rfl
    | ok t =>
      simp only [Except.map]
      rw [ih (i + 1) (fun p hp => h p (List.mem_cons_of_mem pg hp))]

theorem docMatches_ocr_fail (io avail : Bool) (pat : Pattern) (radius : Nat)
    (d : DocData)
    (h : ∀ pages, d.openResult = .ok pages →
      ∀ pg ∈ pages, _ocr_page avail pg = .error ()) :
    docMatches io avail pat radius d = docMatches false avail pat radius d := by
  unfold docMatches
  cases hO : d.openResult with
  | error e => rfl
  | ok pages =>
    exact walkPages_ocr_fail io avail pat d.path radius pages 0 (h pages hO)

theorem walkPages_noocr_used_ocr (avail : Bool) (pat : Pattern)
    (path : List Char) (radius : Nat) :
    ∀ (pages : List PageData) (i : Nat) (m : Match),
      m ∈ walkPages false avail pat path radius i pages →
      m.used_ocr = false := by
  intro pages
  induction pages with
  | nil => intro i m hm; simp [walkPages] at hm
  | cons pg rest ih =>
    intro i m hm
    rw [walkPages, resolve_page_text_noocr avail pg] at hm
    cases hE : pg.extractResult with
    | error e =>
      rw [hE] at hm
      simp [Except.map] at hm
    | ok t =>
      rw [hE] at hm
      simp only [Except.map] at hm
      rcases List.mem_append.mp hm with h1 | h1
      · exact page_matches_used_ocr pat path (i + 1) t false radius m h1
      · exact ih (i + 1) m h1

theorem docMatches_noocr_used_ocr (avail : Bool) (pat : Pattern)
    (radius : Nat) (d : DocData) (m : Match)
    (hm : m ∈ docMatches false avail pat radius d) : m.used_ocr = false := by
  unfold docMatches at hm
  cases hO : d.openResult with
  | error e => rw [hO] at hm; simp at hm
  | ok pages =>
    rw [hO] at hm
    exact walkPages_noocr_used_ocr avail pat d.path radius pages 0 m hm

theorem search_pdfs_returns_ok (env : Env) (req : SearchReq) (pat : Pattern)
    (hf : env.fitzAvailable = true) (hv : env.folderValid = true)
    (hq : pyStrip req.query ≠ [])
    (hcomp : compile_pattern env.reComp (pyStrip req.query) req.use_regex
      req.ignore_case = .ok pat) :
    ∃ m, (search_pdfs env req).1 = .ok m := by
  unfold search_pdfs
  rw [if_neg (by simp [hf]), if_neg (by simp [hv]), if_neg hq]
  split
  · rename_i heq
    rw [hcomp] at heq
    cases heq
  · exact ⟨_, rfl⟩

/-- C6: when the per-page OCR step raises while `include_ocr` is set, the
page silently falls back to the originally extracted text (`resolve_page_text`
returns the extracted text with `used_ocr = false`), the OCR error never
escalates — the run still completes with `ok` — and pattern matching proceeds
on the extracted text: when every OCR attempt of the run raises, the returned
matches are exactly those of the same request with OCR disabled. -/
theorem c6_ocr_errors_fall_back_silently (env : Env) (req : SearchReq)
    (pat : Pattern)
    (hf : env.fitzAvailable = true) (hv : env.folderValid = true)
    (hq : pyStrip req.query ≠ [])
    (hcomp : compile_pattern env.reComp (pyStrip req.query) req.use_regex
      req.ignore_case = .ok pat)
    (hsc : ∀ n, env.shouldCancel n = false)
    (hio : req.include_ocr = true)
    (hfail : ∀ d ∈ iter_pdfs env req.recursive, ∀ pages,
      d.openResult = .ok pages → ∀ pg ∈ pages,
        _ocr_page env.ocrAvailable pg = .error ()) :
    (∀ pg : PageData, _ocr_page env.ocrAvailable pg = .error () →
      resolve_page_text req.include_ocr env.ocrAvailable pg =
        Except.map (fun t => (t, false)) pg.extractResult) ∧
    (∃ m, (search_pdfs env req).1 = .ok m) ∧
    (search_pdfs env req).1 =
      (search_pdfs env { req with include_ocr := false }).1 := by
  refine ⟨fun pg h => resolve_page_text_ocr_fail _ _ pg h,
    search_pdfs_returns_ok env req pat hf hv hq hcomp, ?_⟩
  rw [search_pdfs_matches env req pat hf hv hq hcomp hsc,
    search_pdfs_matches env { req with include_ocr := false } pat hf hv hq
      hcomp hsc]
  show Except.ok ((iter_pdfs env req.recursive).flatMap
      (docMatches req.include_ocr env.ocrAvailable pat req.snippet_radius)) =
    Except.ok ((iter_pdfs env req.recursive).flatMap
      (docMatches false env.ocrAvailable pat req.snippet_radius))
  congr 1
  exact List.flatMap_congr (fun d hd =>
    docMatches_ocr_fail req.include_ocr env.ocrAvailable pat
      req.snippet_radius d (fun pages hp pg hpg => hfail d hd pages hp pg hpg))

/-- Witness for C6 over the sparse one-page document whose OCR attempt fails
(OCR capability absent): matches equal the OCR-disabled run's matches. -/
theorem c6_ocr_errors_fall_back_silently_witness :
    (search_pdfs (envDocs [sparseDoc]) reqFig).1 =
      (search_pdfs (envDocs [sparseDoc])
        { reqFig with include_ocr := false }).1 :=
  (c6_ocr_errors_fall_back_silently (envDocs [sparseDoc]) reqFig
    { re := reEscape "fig".toList, ic := true } rfl rfl (by decide) (by decide)
    (fun _ => rfl) rfl (fun _ _ _ _ _ _ => rfl)).2.2

/-- C7 counterexample: OCR is requested (`include_ocr = true`), the OCR
capability is entirely absent (`ocrAvailable = false`), the only page is
sparse enough to trigger the OCR path — yet the run raises/reports no error
at all: `search_pdfs` returns `ok` with the match built from the extracted
text.  The `RuntimeError` that `_ocr_page` raises is swallowed by the
per-page handler, so no `OcrUnavailable` error is reported even once,
refuting "reported exactly once for the run". -/
theorem c7_counterexample_no_error_is_reported :
    (search_pdfs (envDocs [sparseDoc]) reqFig).1 =
      .ok [{ pdf_path := "/r/s.pdf".toList
             page_number_1based := 1
             snippet := "Fig. 1".toList
             used_ocr := false }] := by
  decide

/-- C7 (amended): when `include_ocr` is set and the OCR capability is
entirely absent, the core does not crash — the run completes with `ok` —
and every page that would have been OCR'd falls back to its non-OCR
extracted text; but no `OcrUnavailable` error is raised or reported to the
caller, not even once: the per-page `RuntimeError` is swallowed silently,
so the matches are exactly those of an OCR-disabled run and every returned
match has `used_ocr = false`. -/
theorem c7_ocr_unavailable_degrades_silently (env : Env) (req : SearchReq)
    (pat : Pattern)
    (hf : env.fitzAvailable = true) (hv : env.folderValid = true)
    (hq : pyStrip req.query ≠ [])
    (hcomp : compile_pattern env.reComp (pyStrip req.query) req.use_regex
      req.ignore_case = .ok pat)
    (hsc : ∀ n, env.shouldCancel n = false)
    (hio : req.include_ocr = true) (hoa : env.ocrAvailable = false) :
    (∃ m, (search_pdfs env req).1 = .ok m) ∧
    (search_pdfs env req).1 =
      .ok ((iter_pdfs env req.recursive).flatMap
        (docMatches false env.ocrAvailable pat req.snippet_radius)) ∧
    (∀ ms m, (search_pdfs env req).1 = .ok ms → m ∈ ms →
      m.used_ocr = false) := by
  have hrw : (search_pdfs env req).1 =
      .ok ((iter_pdfs env req.recursive).flatMap
        (docMatches false env.ocrAvailable pat req.snippet_radius)) := by
    rw [search_pdfs_matches env req pat hf hv hq hcomp hsc]
    congr 1
    refine List.flatMap_congr (fun d hd =>
      docMatches_ocr_fail req.include_ocr env.ocrAvailable pat
        req.snippet_radius d (fun pages hp pg hpg => ?_))
    rw [hoa]
    rfl
  refine ⟨search_pdfs_returns_ok env req pat hf hv hq hcomp, hrw, ?_⟩
  intro ms m hms hm
  rw [hrw] at hms
  injection hms with hms
  subst hms
  obtain ⟨d, hd, hmd⟩ := List.mem_flatMap.mp hm
  exact docMatches_noocr_used_ocr env.ocrAvailable pat req.snippet_radius
    d m hmd

/-- Witness for C7 (amended) over the sparse one-page document with OCR
requested but unavailable. -/
theorem c7_ocr_unavailable_degrades_silently_witness :
    (search_pdfs (envDocs [sparseDoc]) reqFig).1 =
      .ok (((iter_pdfs (envDocs [sparseDoc]) reqFig.recursive)).flatMap
        (docMatches false false { re := reEscape "fig".toList, ic := true }
          70)) :=
  (c7_ocr_unavailable_degrades_silently (envDocs [sparseDoc]) reqFig
    { re := reEscape "fig".toList, ic := true } rfl rfl (by decide)
    (by decide) (fun _ => rfl) rfl rfl).2.1

theorem pathLe_total (a : List Char) : ∀ b : List Char,
    pathLe a b = true ∨ pathLe b a = true := by
  induction a with
  | nil => intro b; left; rfl
  | cons x xs ih =>
    intro b
    cases b with
    | nil => right; rfl
    | cons y ys =>
      rcases lt_trichotomy x y with h | h | h
      · left; simp [pathLe, h]
      · subst h
        rcases ih ys with h2 | h2
        · left; simp [pathLe, h2]
        · right; simp [pathLe, h2]
      · right; simp [pathLe, h]

theorem pathLe_trans (a : List Char) : ∀ b c : List Char,
    pathLe a b = true → pathLe b c = true → pathLe a c = true := by
  induction a with
  | nil => intro b c h1 h2; rfl
  | cons x xs ih =>
    intro b c h1 h2
    cases b with
    | nil => simp [pathLe] at h1
    | cons y ys =>
      cases c with
      | nil => simp [pathLe] at h2
      | cons z zs =>
        simp only [pathLe, Bool.or_eq_true, Bool.and_eq_true,
          decide_eq_true_eq] at h1 h2 ⊢
        rcases h1 with h1 | ⟨rfl, h1⟩
        · rcases h2 with h2 | ⟨rfl, h2⟩
          · exact Or.inl (lt_trans h1 h2)
          · exact Or.inl h1
        · rcases h2 with h2 | ⟨rfl, h2⟩
          · exact Or.inl h2
          · exact Or.inr ⟨rfl, ih ys zs h1 h2⟩

instance : IsTotal DocData docLe :=
  ⟨fun d1 d2 => pathLe_total d1.path d2.path⟩

instance : IsTrans DocData docLe :=
  ⟨fun d1 d2 d3 => pathLe_trans d1.path d2.path d3.path⟩

/-- C9: the candidate documents are exactly the `.pdf`-suffixed entries of
the folder (the recursive listing iff the recursive flag is set) — a
permutation of that filter — sorted lexicographically by resolved path, and
the returned match list is the concatenation of the per-document matches in
exactly that order.  `search_pdfs` is a pure function of the environment and
the request, so two runs over the same unchanged folder with the same
request produce identical match lists in identical order. -/
theorem c9_enumeration_sorted_and_deterministic (env : Env) (req : SearchReq)
    (pat : Pattern)
    (hf : env.fitzAvailable = true) (hv : env.folderValid = true)
    (hq : pyStrip req.query ≠ [])
    (hcomp : compile_pattern env.reComp (pyStrip req.query) req.use_regex
      req.ignore_case = .ok pat)
    (hsc : ∀ n, env.shouldCancel n = false) :
    (iter_pdfs env req.recursive).Perm
      ((if req.recursive then env.entriesRecursive else env.entriesTop).filter
        (fun d => ".pdf".toList.isSuffixOf d.path)) ∧
    (iter_pdfs env req.recursive).Sorted docLe ∧
    (search_pdfs env req).1 =
      .ok ((iter_pdfs env req.recursive).flatMap
        (docMatches req.include_ocr env.ocrAvailable pat
          req.snippet_radius)) :=
  ⟨List.perm_insertionSort docLe _, List.sorted_insertionSort docLe _,
    search_pdfs_matches env req pat hf hv hq hcomp hsc⟩

/-- Witness for C9 over a two-document folder listed out of order. -/
theorem c9_enumeration_sorted_and_deterministic_witness :
    (iter_pdfs (envDocs [docB, docA]) reqHello.recursive).Sorted docLe :=
  (c9_enumeration_sorted_and_deterministic (envDocs [docB, docA]) reqHello
    { re := reEscape "hello".toList, ic := true } rfl rfl (by decide)
    (by decide) (fun _ => rfl)).2.1

/-- C10: `used_ocr` is `true` exactly for pages whose text came from a
successful OCR pass: the resolver returns `(t, true)` iff OCR was requested,
the OCR capability is present, the extracted text was below the sufficiency
threshold and the OCR call returned `t`; when the OCR attempt raises
(including when the OCR libraries are absent), the resolver returns the
originally extracted text flagged `false` — so the matches built from it
(whose snippets come from that extracted text) all carry
`used_ocr = false`; and every match built from a resolved page carries
exactly the resolver's flag. -/
theorem c10_used_ocr_iff_successful_ocr (io avail : Bool) (pg : PageData)
    (pat : Pattern) (path : List Char) (pno : Nat) (radius : Nat)
    (t : List Char) (u : Bool) :
    (resolve_page_text io avail pg = .ok (t, true) ↔
      (io = true ∧ avail = true ∧
        (∃ e, pg.extractResult = .ok e ∧ _page_needs_ocr e = true) ∧
        pg.ocrResult = .ok t)) ∧
    (_ocr_page avail pg = .error () →
      resolve_page_text io avail pg =
        Except.map (fun s => (s, false)) pg.extractResult) ∧
    (∀ m ∈ page_matches pat path pno t u radius, m.used_ocr = u) :=
  ⟨resolve_page_text_used_ocr_iff io avail pg t,
    fun h => resolve_page_text_ocr_fail io avail pg h,
    page_matches_used_ocr pat path pno t u radius⟩

/-- Witness for C10: with OCR requested but the capability absent, the
sparse page resolves to its extracted text with `used_ocr = false`. -/
theorem c10_used_ocr_iff_successful_ocr_witness :
    resolve_page_text true false (pageOf "Fig. 1".toList) =
      Except.map (fun s => (s, false))
        (pageOf "Fig. 1".toList).extractResult :=
  (c10_used_ocr_iff_successful_ocr true false (pageOf "Fig. 1".toList)
    { re := Regex.eps, ic := true } [] 1 70 [] false).2.1 rfl

theorem gateRun_append_one (s : Option Bool) (tr : List Ev) (e : Ev) :
    gateRun s (tr ++ [e]) = gateStep (gateRun s tr) e := by
  simp [gateRun, List.foldl_append]

theorem stopRun_append_one (s : Option Bool) (tr : List Ev) (e : Ev) :
    stopRun s (tr ++ [e]) = stopStep (stopRun s tr) e := by
  simp [stopRun, List.foldl_append]

theorem gateStep_prog (s : Option Bool) (p : Progress) :
    gateStep s (.prog p) = s := by
  cases s with
  | none => rfl
  | some a => rfl

theorem gateStep_openCount (s : Option Bool) (p : List Char) :
    gateStep s (.openCount p) = s := by
  cases s with
  | none => rfl
  | some a => rfl

theorem gateStep_ocrTry (s : Option Bool) (p : List Char) (i : Nat) :
    gateStep s (.ocrTry p i) = s := by
  cases s with
  | none => rfl
  | some a => rfl

theorem stopStep_neutral (seen : Bool) (e : Ev) (h1 : isWork e = false)
    (h2 : e ≠ .pollEv true) : stopStep (some seen) e = some seen := by
  cases e with
  | pollEv b =>
    cases b with
    | false => simp [stopStep, isWork]
    | true => exact absurd rfl h2
  | openCount p => simp [stopStep, isWork]
  | openDoc p => simp [isWork] at h1
  | loadPage p i => simp [isWork] at h1
  | ocrTry p i => simp [stopStep, isWork]
  | prog p => simp [stopStep, isWork]

theorem gateRun_emitProg (hc : Bool) (total : Nat) (f : Option (List Char))
    (st : St) (s : Option Bool) :
    gateRun s (emitProg hc total f st).trace = gateRun s st.trace := by
  unfold emitProg
  split
  · show gateRun s (st.trace ++ [_]) = _
    rw [gateRun_append_one, gateStep_prog]
  · rfl

theorem stopRun_emitProg (hc : Bool) (total : Nat) (f : Option (List Char))
    (st : St) (s : Option Bool) :
    stopRun s (emitProg hc total f st).trace = stopRun s st.trace := by
  unfold emitProg
  split
  · show stopRun s (st.trace ++ [_]) = _
    rw [stopRun_append_one]
    cases stopRun s st.trace with
    | none => rfl
    | some seen => exact stopStep_neutral seen _ rfl (by simp)
  · rfl

theorem emitProg_trace_no_loadPage (hc : Bool) (total : Nat)
    (f : Option (List Char)) (st : St) (p : List Char) (i : Nat)
    (h : Ev.loadPage p i ∉ st.trace) :
    Ev.loadPage p i ∉ (emitProg hc total f st).trace := by
  unfold emitProg
  split
  · simp [List.mem_append, h]
  · exact h

theorem count_total_pages_no_loadPage (p : List Char) (i : Nat) :
    ∀ ds : List DocData, Ev.loadPage p i ∉ (count_total_pages ds).2 := by
  intro ds
  induction ds with
  | nil => simp [count_total_pages]
  | cons d rest ih =>
    rw [count_total_pages]
    cases hO : d.openResult with
    | error e => simp
    | ok pgs => simp [ih]

theorem runPages_cancel (pat : Pattern) (req : SearchReq) (env : Env)
    (total : Nat) (path : List Char) (pages : List PageData) (i : Nat)
    (st : St) (hc : env.shouldCancel st.polls = true) :
    runPages pat req env total path i pages st =
      (match pages with
       | [] => (st, false)
       | _ :: _ =>
         ({ st with
              polls := st.polls + 1
              trace := st.trace ++ [.pollEv true] }, false)) := by
  cases pages with
  | nil => rfl
  | cons pg rest =>
    rw [runPages]
    simp [pollCancel, hc]

theorem runDocs_cancel (pat : Pattern) (req : SearchReq) (env : Env)
    (total : Nat) (ds : List DocData) (st : St)
    (hc : env.shouldCancel st.polls = true) :
    runDocs pat req env total ds st =
      (match ds with
       | [] => st
       | _ :: _ =>
         { st with
             polls := st.polls + 1
             trace := st.trace ++ [.pollEv true] }) := by
  cases ds with
  | nil => rfl
  | cons d rest =>
    rw [runDocs]
    simp [pollCancel, hc]

theorem gateRun_append (s : Option Bool) (tr l : List Ev) :
    gateRun s (tr ++ l) = gateRun (gateRun s tr) l := by
  simp [gateRun, List.foldl_append]

theorem stopRun_append (s : Option Bool) (tr l : List Ev) :
    stopRun s (tr ++ l) = stopRun (stopRun s tr) l := by
  simp [stopRun, List.foldl_append]

theorem runPages_gate (pat : Pattern) (req : SearchReq) (env : Env)
    (total : Nat) (path : List Char) :
    ∀ (pages : List PageData) (i : Nat) (st : St), GateInv st →
      GateInv (runPages pat req env total path i pages st).1 := by
  intro pages
  induction pages with
  | nil =>
    intro i st h
    simpa [runPages] using h
  | cons pg rest ih =>
    intro i st h
    obtain ⟨a, ha⟩ := h
    unfold gateRun at ha
    rw [runPages]
    simp only [pollCancel]
    cases hc : env.shouldCancel st.polls with
    | true =>
      refine ⟨a, ?_⟩
      simp [gateRun, List.foldl_append, ha, gateStep]
    | false =>
      simp only [Bool.false_eq_true, if_false]
      split
      · refine ⟨false, ?_⟩
        simp [gateRun, List.foldl_append, ha, gateStep]
      · split
        · refine ⟨false, ?_⟩
          split
          · simp [gateRun, List.foldl_append, ha, gateStep]
          · simp [gateRun, List.foldl_append, ha, gateStep]
        · apply ih
          unfold GateInv
          split
          · split
            · refine ⟨false, ?_⟩
              simp only [gateRun_emitProg]
              simp [gateRun, List.foldl_append, ha, gateStep]
            · refine ⟨false, ?_⟩
              simp [gateRun, List.foldl_append, ha, gateStep]
          · split
            · refine ⟨false, ?_⟩
              simp only [gateRun_emitProg]
              simp [gateRun, List.foldl_append, ha, gateStep]
            · refine ⟨false, ?_⟩
              simp [gateRun, List.foldl_append, ha, gateStep]

theorem GateInv_emitProg (hc : Bool) (total : Nat) (f : Option (List Char))
    (st : St) (h : GateInv st) : GateInv (emitProg hc total f st) := by
  obtain ⟨a, ha⟩ := h
  exact ⟨a, by rw [gateRun_emitProg]; exact ha⟩

theorem runDocs_gate (pat : Pattern) (req : SearchReq) (env : Env)
    (total : Nat) :
    ∀ (ds : List DocData) (st : St), GateInv st →
      GateInv (runDocs pat req env total ds st) := by
  intro ds
  induction ds with
  | nil =>
    intro st h
    simpa [runDocs] using h
  | cons d rest ih =>
    intro st h
    obtain ⟨a, ha⟩ := h
    unfold gateRun at ha
    rw [runDocs]
    simp only [pollCancel]
    cases hc : env.shouldCancel st.polls with
    | true =>
      refine ⟨a, ?_⟩
      simp [gateRun, List.foldl_append, ha, gateStep]
    | false =>
      simp only [Bool.false_eq_true, if_false]
      split
      · apply ih
        apply GateInv_emitProg
        refine ⟨false, ?_⟩
        simp only [gateRun_emitProg, gateRun_append]
        simp [gateRun, List.foldl_append, ha, gateStep]
      · apply ih
        split
        · apply GateInv_emitProg
          apply runPages_gate
          refine ⟨false, ?_⟩
          simp only [gateRun_emitProg, gateRun_append]
          simp [gateRun, List.foldl_append, ha, gateStep]
        · apply runPages_gate
          refine ⟨false, ?_⟩
          simp only [gateRun_emitProg, gateRun_append]
          simp [gateRun, List.foldl_append, ha, gateStep]

theorem StopInv_emitProg (env : Env) (hc : Bool) (total : Nat)
    (f : Option (List Char)) (st : St) (h : StopInv env st) :
    StopInv env (emitProg hc total f st) := by
  obtain ⟨seen, h1, h2⟩ := h
  refine ⟨seen, ?_, ?_⟩
  · rw [stopRun_emitProg]
    exact h1
  · rw [emitProg_polls]
    exact h2

theorem runPages_stop (pat : Pattern) (req : SearchReq) (env : Env)
    (total : Nat) (path : List Char)
    (mono : ∀ m n, m ≤ n → env.shouldCancel m = true →
      env.shouldCancel n = true) :
    ∀ (pages : List PageData) (i : Nat) (st : St), StopInv env st →
      StopInv env (runPages pat req env total path i pages st).1 := by
  intro pages
  induction pages with
  | nil =>
    intro i st h
    simpa [runPages] using h
  | cons pg rest ih =>
    intro i st h
    obtain ⟨seen, h1, h2⟩ := h
    unfold stopRun at h1
    rw [runPages]
    simp only [pollCancel]
    cases hc : env.shouldCancel st.polls with
    | true =>
      refine ⟨true, ?_, ?_⟩
      · simp [stopRun, List.foldl_append, h1, stopStep]
      · intro _
        exact mono st.polls (st.polls + 1) (Nat.le_succ _) hc
    | false =>
      have hseen : seen = false := by
        cases seen
        · rfl
        · exact absurd (h2 rfl) (by simp [hc])
      subst hseen
      simp only [Bool.false_eq_true, if_false]
      split
      · refine ⟨false, ?_, ?_⟩
        · simp [stopRun, List.foldl_append, h1, stopStep, isWork]
        · intro hfalse
          cases hfalse
      · split
        · split
          · refine ⟨false, ?_, ?_⟩
            · simp [stopRun, List.foldl_append, h1, stopStep, isWork]
            · intro hfalse
              cases hfalse
          · refine ⟨false, ?_, ?_⟩
            · simp [stopRun, List.foldl_append, h1, stopStep, isWork]
            · intro hfalse
              cases hfalse
        · apply ih
          unfold StopInv
          split
          · split
            · apply StopInv_emitProg
              refine ⟨false, ?_, ?_⟩
              · simp [stopRun, List.foldl_append, h1, stopStep, isWork]
              · intro hfalse
                cases hfalse
            · refine ⟨false, ?_, ?_⟩
              · simp [stopRun, List.foldl_append, h1, stopStep, isWork]
              · intro hfalse
                cases hfalse
          · split
            · apply StopInv_emitProg
              refine ⟨false, ?_, ?_⟩
              · simp [stopRun, List.foldl_append, h1, stopStep, isWork]
              · intro hfalse
                cases hfalse
            · refine ⟨false, ?_, ?_⟩
              · simp [stopRun, List.foldl_append, h1, stopStep, isWork]
              · intro hfalse
                cases hfalse

theorem runDocs_stop (pat : Pattern) (req : SearchReq) (env : Env)
    (total : Nat)
    (mono : ∀ m n, m ≤ n → env.shouldCancel m = true →
      env.shouldCancel n = true) :
    ∀ (ds : List DocData) (st : St), StopInv env st →
      StopInv env (runDocs pat req env total ds st) := by
  intro ds
  induction ds with
  | nil =>
    intro st h
    simpa [runDocs] using h
  | cons d rest ih =>
    intro st h
    obtain ⟨seen, h1, h2⟩ := h
    unfold stopRun at h1
    rw [runDocs]
    simp only [pollCancel]
    cases hc : env.shouldCancel st.polls with
    | true =>
      refine ⟨true, ?_, ?_⟩
      · simp [stopRun, List.foldl_append, h1, stopStep]
      · intro _
        exact mono st.polls (st.polls + 1) (Nat.le_succ _) hc
    | false =>
      have hseen : seen = false := by
        cases seen
        · rfl
        · exact absurd (h2 rfl) (by simp [hc])
      subst hseen
      simp only [Bool.false_eq_true, if_false]
      split
      · apply ih
        apply StopInv_emitProg
        refine ⟨false, ?_, ?_⟩
        · simp only [stopRun_emitProg, stopRun_append]
          simp [stopRun, List.foldl_append, h1, stopStep, isWork]
        · intro hfalse
          cases hfalse
      · apply ih
        split
        · apply StopInv_emitProg
          apply runPages_stop pat req env total d.path mono
          refine ⟨false, ?_, ?_⟩
          · simp only [stopRun_emitProg, stopRun_append]
            simp [stopRun, List.foldl_append, h1, stopStep, isWork]
          · intro hfalse
            cases hfalse
        · apply runPages_stop pat req env total d.path mono
          refine ⟨false, ?_, ?_⟩
          · simp only [stopRun_emitProg, stopRun_append]
            simp [stopRun, List.foldl_append, h1, stopStep, isWork]
          · intro hfalse
            cases hfalse

theorem resolve_ok_of_extract_ok (io avail : Bool) (pg : PageData)
    (t : List Char) (h : pg.extractResult = .ok t) :
    ∃ tu, resolve_page_text io avail pg = .ok tu := by
  rw [resolve_page_text_ok io avail pg t h]
  split
  · split
    · exact ⟨_, rfl⟩
    · exact ⟨_, rfl⟩
  · exact ⟨_, rfl⟩

theorem mem_loadPage_emitProg (hc : Bool) (total : Nat)
    (f : Option (List Char)) (st : St) (p : List Char) (i : Nat) :
    (Ev.loadPage p i ∈ (emitProg hc total f st).trace) ↔
      Ev.loadPage p i ∈ st.trace := by
  unfold emitProg
  split
  · simp
  · exact Iff.rfl

theorem stopStep_openCount (s : Option Bool) (p : List Char) :
    stopStep s (.openCount p) = s := by
  cases s with
  | none => rfl
  | some seen => simp [stopStep, isWork]

theorem count_total_pages_gate (s : Option Bool) :
    ∀ ds : List DocData, gateRun s (count_total_pages ds).2 = s := by
  intro ds
  induction ds generalizing s with
  | nil => rfl
  | cons d rest ih =>
    rw [count_total_pages]
    cases hO : d.openResult with
    | error e =>
      show gateRun s [Ev.openCount d.path] = s
      simp [gateRun, gateStep_openCount]
    | ok pgs =>
      show gateRun s (Ev.openCount d.path :: (count_total_pages rest).2) = s
      have hstep : gateRun s (Ev.openCount d.path :: (count_total_pages rest).2)
          = gateRun (gateStep s (Ev.openCount d.path)) (count_total_pages rest).2 :=
        rfl
      rw [hstep, gateStep_openCount, ih]

theorem count_total_pages_stop (s : Option Bool) :
    ∀ ds : List DocData, stopRun s (count_total_pages ds).2 = s := by
  intro ds
  induction ds generalizing s with
  | nil => rfl
  | cons d rest ih =>
    rw [count_total_pages]
    cases hO : d.openResult with
    | error e =>
      show stopRun s [Ev.openCount d.path] = s
      simp [stopRun, stopStep_openCount]
    | ok pgs =>
      show stopRun s (Ev.openCount d.path :: (count_total_pages rest).2) = s
      have hstep : stopRun s (Ev.openCount d.path :: (count_total_pages rest).2)
          = stopRun (stopStep s (Ev.openCount d.path)) (count_total_pages rest).2 :=
        rfl
      rw [hstep, stopStep_openCount, ih]

theorem preScan_no_loadPage (env : Env) (req : SearchReq) (p : List Char)
    (i : Nat) : Ev.loadPage p i ∉ (preScan env req).2 := by
  unfold preScan
  split
  · simp
  · exact count_total_pages_no_loadPage p i _

theorem search_pdfs_eq (env : Env) (req : SearchReq) (pat : Pattern)
    (hf : env.fitzAvailable = true) (hv : env.folderValid = true)
    (hq : pyStrip req.query ≠ [])
    (hcomp : compile_pattern env.reComp (pyStrip req.query) req.use_regex
      req.ignore_case = .ok pat) :
    search_pdfs env req =
      (.ok (emitProg env.hasProgress (totalOf env req) none
          (runDocs pat req env (totalOf env req) (iter_pdfs env req.recursive)
            (emitProg env.hasProgress (totalOf env req) none
              { polls := 0, processed := 0, found := [],
                trace := (preScan env req).2 }))).found,
       (emitProg env.hasProgress (totalOf env req) none
          (runDocs pat req env (totalOf env req) (iter_pdfs env req.recursive)
            (emitProg env.hasProgress (totalOf env req) none
              { polls := 0, processed := 0, found := [],
                trace := (preScan env req).2 }))).trace) := by
  unfold search_pdfs totalOf preScan
  rw [if_neg (by simp [hf]), if_neg (by simp [hv]), if_neg hq]
  split
  · rename_i heq
    rw [hcomp] at heq
    cases heq
  · rename_i pat1 heq
    rw [hcomp] at heq
    injection heq with h1
    subst h1
    rfl

theorem runPages_nil (pat : Pattern) (req : SearchReq) (env : Env)
    (total : Nat) (path : List Char) (i : Nat) (st : St) :
    runPages pat req env total path i [] st = (st, false) := rfl

theorem runDocs_nil (pat : Pattern) (req : SearchReq) (env : Env)
    (total : Nat) (st : St) : runDocs pat req env total [] st = st := rfl

theorem runDocs_cancel_after_first_page (pat : Pattern) (req : SearchReq)
    (env : Env) (total : Nat) (d : DocData) (rest : List DocData)
    (pg0 : PageData) (pgs : List PageData) (t0 : List Char)
    (hO : d.openResult = .ok (pg0 :: pgs))
    (hE : pg0.extractResult = .ok t0)
    (h0 : env.shouldCancel 0 = false) (h1 : env.shouldCancel 1 = false)
    (h2 : ∀ n, 2 ≤ n → env.shouldCancel n = true)
    (st : St) (hpolls : st.polls = 0)
    (hnl : ∀ p i, Ev.loadPage p i ∉ st.trace) :
    (∀ p i, Ev.loadPage p i ∈ (runDocs pat req env total (d :: rest) st).trace →
      p = d.path ∧ i = 0) ∧
    (∃ tu, resolve_page_text req.include_ocr env.ocrAvailable pg0 = .ok tu ∧
      (runDocs pat req env total (d :: rest) st).found =
        st.found ++ page_matches pat d.path 1 tu.1 tu.2 req.snippet_radius) := by
  obtain ⟨tu0, hRes0⟩ :=
    resolve_ok_of_extract_ok req.include_ocr env.ocrAvailable pg0 t0 hE
  have ha2 := h2 2 (le_refl 2)
  have ha3 := h2 3 (by omega)
  rw [runDocs]
  simp only [pollCancel, hpolls, h0, Bool.false_eq_true, if_false]
  split
  · rename_i e heq
    rw [hO] at heq
    cases heq
  · rename_i pages heq
    rw [hO] at heq
    injection heq with heq
    subst heq
    rw [runPages]
    simp only [pollCancel, emitProg_polls, hpolls, Nat.zero_add, h1,
      Bool.false_eq_true, if_false]
    rw [hE, hRes0]
    simp only []
    have ha2b : env.shouldCancel (1 + 1) = true := ha2
    have ha3b : env.shouldCancel (1 + 1 + 1) = true := ha3
    have ha3c : env.shouldCancel (2 + 1) = true := ha3
    split <;> split <;> cases pgs <;> cases rest <;>
      simp only [runPages_nil, runDocs_nil, runPages_cancel, runDocs_cancel,
        emitProg_polls, ha2, ha2b, ha3, ha3b, ha3c, if_true,
        Bool.false_eq_true, if_false] <;>
      refine ⟨?_, ⟨tu0, rfl, ?_⟩⟩ <;>
      first
        | (intro p i hm
           simp [mem_loadPage_emitProg, hnl p i] at hm
           exact hm)
        | simp [emitProg_found]

theorem preScan_gate (s : Option Bool) (env : Env) (req : SearchReq) :
    gateRun s (preScan env req).2 = s := by
  unfold preScan
  split
  · rfl
  · exact count_total_pages_gate s _

theorem preScan_stop (s : Option Bool) (env : Env) (req : SearchReq) :
    stopRun s (preScan env req).2 = s := by
  unfold preScan
  split
  · rfl
  · exact count_total_pages_stop s _

/-- C5: `search_pdfs` polls the cancellation flag before opening each
document and before each page — every main-loop document open and page
extraction in the trace is preceded by a fresh negative poll
(`cancelChecked`), so the flag is also re-checked between a page and any
following work; once a (monotone, as set by a caller requesting
cancellation) flag is observed `true`, no further document is opened and no
further page is extracted (`noWorkAfterCancel`); the run still returns its
accumulated matches (`ok`, never discarded); and requesting cancellation
after the first document's first page — the flag is off for the first two
polls and on from the third — guarantees that the only page extraction of
the whole run is page 0 of the first document and that exactly that page's
matches are returned. -/
theorem c5_cancellation_polled_prompt_and_partial (env : Env)
    (req : SearchReq) (pat : Pattern)
    (hf : env.fitzAvailable = true) (hv : env.folderValid = true)
    (hq : pyStrip req.query ≠ [])
    (hcomp : compile_pattern env.reComp (pyStrip req.query) req.use_regex
      req.ignore_case = .ok pat)
    (mono : ∀ m n, m ≤ n → env.shouldCancel m = true →
      env.shouldCancel n = true) :
    cancelChecked (search_pdfs env req).2 ∧
    noWorkAfterCancel (search_pdfs env req).2 ∧
    (∃ m, (search_pdfs env req).1 = .ok m) ∧
    (∀ d rest pg0 pgs t0,
      iter_pdfs env req.recursive = d :: rest →
      d.openResult = .ok (pg0 :: pgs) →
      pg0.extractResult = .ok t0 →
      env.shouldCancel 0 = false → env.shouldCancel 1 = false →
      env.shouldCancel 2 = true →
      (∀ p i, Ev.loadPage p i ∈ (search_pdfs env req).2 →
        p = d.path ∧ i = 0) ∧
      (∃ tu, resolve_page_text req.include_ocr env.ocrAvailable pg0 =
          .ok tu ∧
        (search_pdfs env req).1 =
          .ok (page_matches pat d.path 1 tu.1 tu.2 req.snippet_radius))) := by
  have hEq := search_pdfs_eq env req pat hf hv hq hcomp
  refine ⟨?_, ?_, search_pdfs_returns_ok env req pat hf hv hq hcomp, ?_⟩
  · unfold cancelChecked
    rw [hEq]
    have hg : GateInv (emitProg env.hasProgress (totalOf env req) none
        (runDocs pat req env (totalOf env req) (iter_pdfs env req.recursive)
          (emitProg env.hasProgress (totalOf env req) none
            { polls := 0, processed := 0, found := [],
              trace := (preScan env req).2 }))) := by
      apply GateInv_emitProg
      apply runDocs_gate
      apply GateInv_emitProg
      exact ⟨false, preScan_gate (some false) env req⟩
    obtain ⟨b, hb⟩ := hg
    show gateRun (some false) _ ≠ none
    rw [hb]
    simp
  · unfold noWorkAfterCancel
    rw [hEq]
    have hg : StopInv env (emitProg env.hasProgress (totalOf env req) none
        (runDocs pat req env (totalOf env req) (iter_pdfs env req.recursive)
          (emitProg env.hasProgress (totalOf env req) none
            { polls := 0, processed := 0, found := [],
              trace := (preScan env req).2 }))) := by
      apply StopInv_emitProg
      apply runDocs_stop pat req env (totalOf env req) mono
      apply StopInv_emitProg
      exact ⟨false, preScan_stop (some false) env req, fun h => by cases h⟩
    obtain ⟨b, hb, _⟩ := hg
    show stopRun (some false) _ ≠ none
    rw [hb]
    simp
  · intro d rest pg0 pgs t0 hIter hO hE h0 h1 h2
    have h2' : ∀ n, 2 ≤ n → env.shouldCancel n = true :=
      fun n hn => mono 2 n hn h2
    rw [hIter] at hEq
    have hscen := runDocs_cancel_after_first_page pat req env
      (totalOf env req) d rest pg0 pgs t0 hO hE h0 h1 h2'
      (emitProg env.hasProgress (totalOf env req) none
        { polls := 0, processed := 0, found := [],
          trace := (preScan env req).2 })
      (by rw [emitProg_polls])
      (by
        intro p i
        rw [mem_loadPage_emitProg]
        exact preScan_no_loadPage env req p i)
    obtain ⟨hmem, tu, hRes, hfound⟩ := hscen
    refine ⟨?_, tu, hRes, ?_⟩
    · intro p i hm
      rw [hEq] at hm
      apply hmem p i
      rw [← mem_loadPage_emitProg env.hasProgress (totalOf env req) none]
      exact hm
    · rw [hEq]
      show Except.ok (emitProg _ _ _ _).found = _
      rw [emitProg_found, hfound, emitProg_found]
      rfl

theorem c5_cancellation_polled_prompt_and_partial_witness :
    cancelChecked
      (search_pdfs (envCancelAfterFirstPage [docA, docB]) reqHello).2 ∧
    noWorkAfterCancel
      (search_pdfs (envCancelAfterFirstPage [docA, docB]) reqHello).2 ∧
    (∃ m,
      (search_pdfs (envCancelAfterFirstPage [docA, docB]) reqHello).1 =
        .ok m) ∧
    (∀ d rest pg0 pgs t0,
      iter_pdfs (envCancelAfterFirstPage [docA, docB])
        reqHello.recursive = d :: rest →
      d.openResult = .ok (pg0 :: pgs) →
      pg0.extractResult = .ok t0 →
      (envCancelAfterFirstPage [docA, docB]).shouldCancel 0 = false →
      (envCancelAfterFirstPage [docA, docB]).shouldCancel 1 = false →
      (envCancelAfterFirstPage [docA, docB]).shouldCancel 2 = true →
      (∀ p i, Ev.loadPage p i ∈
          (search_pdfs (envCancelAfterFirstPage [docA, docB]) reqHello).2 →
        p = d.path ∧ i = 0) ∧
      (∃ tu, resolve_page_text reqHello.include_ocr
          (envCancelAfterFirstPage [docA, docB]).ocrAvailable pg0 =
            .ok tu ∧
        (search_pdfs (envCancelAfterFirstPage [docA, docB]) reqHello).1 =
          .ok (page_matches
            { re := reEscape (pyStrip reqHello.query)
              ic := reqHello.ignore_case }
            d.path 1 tu.1 tu.2 reqHello.snippet_radius))) :=
  c5_cancellation_polled_prompt_and_partial
    (envCancelAfterFirstPage [docA, docB]) reqHello
    { re := reEscape (pyStrip reqHello.query), ic := reqHello.ignore_case }
    rfl rfl (by decide) rfl
    (fun m n hmn hm => by
      revert hm
      show decide (2 ≤ m) = true → decide (2 ≤ n) = true
      simp only [decide_eq_true_eq]
      omega)

theorem numProg_append (a b : List Ev) :
    numProg (a ++ b) = numProg a + numProg b := by
  simp [numProg, List.countP_append]

theorem numProg_emitProg_true (total : Nat) (f : Option (List Char))
    (st : St) :
    numProg (emitProg true total f st).trace = numProg st.trace + 1 := by
  simp [emitProg, numProg, List.countP_append, List.countP_cons, isProgEv]

theorem count_total_pages_numProg :
    ∀ ds : List DocData, numProg (count_total_pages ds).2 = 0 := by
  intro ds
  induction ds with
  | nil => rfl
  | cons d rest ih =>
    rw [count_total_pages]
    cases hO : d.openResult with
    | error e => simp [numProg, List.countP_cons, isProgEv]
    | ok pgs => simpa [numProg, List.countP_cons, isProgEv] using ih

theorem preScan_numProg (env : Env) (req : SearchReq) :
    numProg (preScan env req).2 = 0 := by
  unfold preScan
  split
  · rfl
  · exact count_total_pages_numProg _

theorem runPages_numProg (pat : Pattern) (req : SearchReq) (env : Env)
    (total : Nat) (path : List Char)
    (hp : env.hasProgress = true)
    (hsc : ∀ n, env.shouldCancel n = false)
    (ht : 0 < total) :
    ∀ (pages : List PageData) (i : Nat) (st : St),
      (∀ pg ∈ pages, ∃ t, pg.extractResult = .ok t) →
      numProg ((runPages pat req env total path i pages st).1).trace =
        numProg st.trace +
          ((st.processed + pages.length) / 5 - st.processed / 5) ∧
      ((runPages pat req env total path i pages st).1).processed =
        st.processed + pages.length ∧
      (runPages pat req env total path i pages st).2 = false := by
  intro pages
  induction pages with
  | nil =>
    intro i st _
    simp [runPages]
  | cons pg rest ih =>
    intro i st hok
    obtain ⟨t, hE⟩ := hok pg (List.mem_cons_self pg rest)
    have hok' : ∀ p ∈ rest, ∃ t, p.extractResult = .ok t :=
      fun p hp' => hok p (List.mem_cons_of_mem pg hp')
    have ihT : ∀ (j : Nat) (st' : St),
        numProg ((runPages pat req env total path j rest st').1).trace =
          numProg st'.trace +
            ((st'.processed + rest.length) / 5 - st'.processed / 5) :=
      fun j st' => (ih j st' hok').1
    have ihP : ∀ (j : Nat) (st' : St),
        ((runPages pat req env total path j rest st').1).processed =
          st'.processed + rest.length :=
      fun j st' => (ih j st' hok').2.1
    have ihB : ∀ (j : Nat) (st' : St),
        (runPages pat req env total path j rest st').2 = false :=
      fun j st' => (ih j st' hok').2.2
    rw [runPages]
    simp only [pollCancel, hsc, Bool.false_eq_true, if_false]
    split
    · rename_i e heq
      rw [hE] at heq
      exact Except.noConfusion heq
    · rename_i text0 heq
      rw [resolve_page_text_ok req.include_ocr env.ocrAvailable pg text0 heq]
      split
      · rename_i a hres
        split at hres
        · split at hres
          · exact Except.noConfusion hres
          · exact Except.noConfusion hres
        · exact Except.noConfusion hres
      · rename_i text usedOcr hres
        split
        · split
          · rename_i hocr hcond
            simp at hcond
            refine ⟨?_, ?_, ihB _ _⟩
            · rw [ihT, hp, numProg_emitProg_true]
              simp [numProg, List.countP_append, List.countP_cons, isProgEv,
                emitProg_processed]
              omega
            · rw [ihP, hp, emitProg_processed]
              simp
              omega
          · rename_i hocr hcond
            have h5 : ¬ (st.processed + 1) % 5 = 0 := by
              intro hm
              exact hcond (by simp [ht, hm])
            refine ⟨?_, ?_, ihB _ _⟩
            · rw [ihT]
              simp [numProg, List.countP_append, List.countP_cons, isProgEv]
              omega
            · rw [ihP]
              simp
              omega
        · split
          · rename_i hocr hcond
            simp at hcond
            refine ⟨?_, ?_, ihB _ _⟩
            · rw [ihT, hp, numProg_emitProg_true]
              simp [numProg, List.countP_append, List.countP_cons, isProgEv,
                emitProg_processed]
              omega
            · rw [ihP, hp, emitProg_processed]
              simp
              omega
          · rename_i hocr hcond
            have h5 : ¬ (st.processed + 1) % 5 = 0 := by
              intro hm
              exact hcond (by simp [ht, hm])
            refine ⟨?_, ?_, ihB _ _⟩
            · rw [ihT]
              simp [numProg, List.countP_append, List.countP_cons, isProgEv]
              omega
            · rw [ihP]
              simp
              omega

theorem runDocs_numProg (pat : Pattern) (req : SearchReq) (env : Env)
    (total : Nat)
    (hp : env.hasProgress = true)
    (hsc : ∀ n, env.shouldCancel n = false)
    (ht : 0 < total) :
    ∀ (ds : List DocData) (st : St),
      (∀ d ∈ ds, ∀ pgs, d.openResult = .ok pgs →
        ∀ pg ∈ pgs, ∃ t, pg.extractResult = .ok t) →
      (∀ d ∈ ds, ∃ pgs, d.openResult = .ok pgs) →
      numProg (runDocs pat req env total ds st).trace =
        numProg st.trace + ds.length +
          ((st.processed + sumPages ds) / 5 - st.processed / 5) ∧
      (runDocs pat req env total ds st).processed =
        st.processed + sumPages ds := by
  intro ds
  induction ds with
  | nil =>
    intro st _ _
    simp [runDocs, sumPages]
  | cons d rest ih =>
    intro st hpg hopen
    obtain ⟨pgs, hO⟩ := hopen d (List.mem_cons_self d rest)
    have hpg0 : ∀ pg ∈ pgs, ∃ t, pg.extractResult = .ok t :=
      hpg d (List.mem_cons_self d rest) pgs hO
    have hpg' : ∀ d' ∈ rest, ∀ pgs', d'.openResult = .ok pgs' →
        ∀ pg ∈ pgs', ∃ t, pg.extractResult = .ok t :=
      fun d' hd' => hpg d' (List.mem_cons_of_mem d hd')
    have hopen' : ∀ d' ∈ rest, ∃ pgs', d'.openResult = .ok pgs' :=
      fun d' hd' => hopen d' (List.mem_cons_of_mem d hd')
    have ihT : ∀ st' : St,
        numProg (runDocs pat req env total rest st').trace =
          numProg st'.trace + rest.length +
            ((st'.processed + sumPages rest) / 5 - st'.processed / 5) :=
      fun st' => (ih st' hpg' hopen').1
    have ihP : ∀ st' : St,
        (runDocs pat req env total rest st').processed =
          st'.processed + sumPages rest :=
      fun st' => (ih st' hpg' hopen').2
    have rT : ∀ (j : Nat) (st' : St),
        numProg ((runPages pat req env total d.path j pgs st').1).trace =
          numProg st'.trace +
            ((st'.processed + pgs.length) / 5 - st'.processed / 5) :=
      fun j st' =>
        (runPages_numProg pat req env total d.path hp hsc ht pgs j st'
          hpg0).1
    have rP : ∀ (j : Nat) (st' : St),
        ((runPages pat req env total d.path j pgs st').1).processed =
          st'.processed + pgs.length :=
      fun j st' =>
        (runPages_numProg pat req env total d.path hp hsc ht pgs j st'
          hpg0).2.1
    have rB : ∀ (j : Nat) (st' : St),
        (runPages pat req env total d.path j pgs st').2 = false :=
      fun j st' =>
        (runPages_numProg pat req env total d.path hp hsc ht pgs j st'
          hpg0).2.2
    rw [runDocs]
    simp only [pollCancel, hsc, Bool.false_eq_true, if_false]
    split
    · rename_i e heqO
      rw [hO] at heqO
      exact Except.noConfusion heqO
    · rename_i pages heqO
      rw [hO] at heqO
      injection heqO with hpp
      subst hpp
      rw [rB]
      simp only [Bool.false_eq_true, if_false]
      refine ⟨?_, ?_⟩
      · rw [ihT, rT]
        simp [numProg, emitProg, List.countP_append, List.countP_cons,
          isProgEv, hp, sumPages, hO, rP]
        omega
      · rw [ihP, rP]
        simp [emitProg, hp, sumPages, hO]
        omega

/-- C8 counterexample: with a progress callback supplied and one
successfully opened two-page document (no page matching the query), both
pages are extracted and processed, yet the trace contains no
progress-callback invocation whose snapshot reports 1 processed page — the
callback is not invoked after the first processed page, refuting
"once per processed page" (the per-page snapshot of lines 186-188 fires
only when the total is known and `processed_pages` is a multiple of 5). -/
theorem c8_counterexample_no_per_page_progress :
    (envDocs [docTwoPages]).hasProgress = true ∧
    numLoad (search_pdfs (envDocs [docTwoPages]) reqHello).2 = 2 ∧
    numProgAt 1 (search_pdfs (envDocs [docTwoPages]) reqHello).2 = 0 := by
  decide

/-- C8 (amended): for a valid request with a progress callback, no
cancellation, a positive pre-scanned page total, and documents that all
open and extract cleanly, the progress callback is invoked exactly
`2 + D + P / 5` times: once at the start of the walk (line 149), once per
document when it is reached (line 156), once after every fifth processed
page (lines 186-188, on a cumulative counter over the whole run), and once
at the end (line 195) — not once per processed page as claimed. -/
theorem c8_progress_cadence (env : Env) (req : SearchReq) (pat : Pattern)
    (hf : env.fitzAvailable = true) (hv : env.folderValid = true)
    (hq : pyStrip req.query ≠ [])
    (hcomp : compile_pattern env.reComp (pyStrip req.query) req.use_regex
      req.ignore_case = .ok pat)
    (hp : env.hasProgress = true)
    (hsc : ∀ n, env.shouldCancel n = false)
    (ht : 0 < totalOf env req)
    (hpg : ∀ d ∈ iter_pdfs env req.recursive, ∀ pgs,
      d.openResult = .ok pgs → ∀ pg ∈ pgs, ∃ t, pg.extractResult = .ok t)
    (hopen : ∀ d ∈ iter_pdfs env req.recursive, ∃ pgs,
      d.openResult = .ok pgs) :
    numProg (search_pdfs env req).2 =
      2 + (iter_pdfs env req.recursive).length +
        sumPages (iter_pdfs env req.recursive) / 5 := by
  have dT : ∀ st' : St,
      numProg (runDocs pat req env (totalOf env req)
          (iter_pdfs env req.recursive) st').trace =
        numProg st'.trace + (iter_pdfs env req.recursive).length +
          ((st'.processed + sumPages (iter_pdfs env req.recursive)) / 5 -
            st'.processed / 5) :=
    fun st' => (runDocs_numProg pat req env (totalOf env req) hp hsc ht
      (iter_pdfs env req.recursive) st' hpg hopen).1
  rw [search_pdfs_eq env req pat hf hv hq hcomp]
  show numProg (emitProg env.hasProgress _ none _).trace = _
  rw [hp, numProg_emitProg_true, dT, numProg_emitProg_true,
    emitProg_processed]
  show numProg (preScan env req).2 + 1 +
      (iter_pdfs env req.recursive).length +
      ((0 + sumPages (iter_pdfs env req.recursive)) / 5 - 0 / 5) + 1 = _
  rw [preScan_numProg]
  omega

theorem c8_progress_cadence_witness :
    (2 + (iter_pdfs (envDocs [docTwoPages]) reqHello.recursive).length +
      sumPages (iter_pdfs (envDocs [docTwoPages]) reqHello.recursive) / 5
        = 3) ∧
    numProg (search_pdfs (envDocs [docTwoPages]) reqHello).2 =
      2 + (iter_pdfs (envDocs [docTwoPages]) reqHello.recursive).length +
        sumPages (iter_pdfs (envDocs [docTwoPages]) reqHello.recursive) / 5 :=
  ⟨by decide,
    c8_progress_cadence (envDocs [docTwoPages]) reqHello
      { re := reEscape (pyStrip reqHello.query), ic := reqHello.ignore_case }
      rfl rfl (by decide) rfl rfl (fun _ => rfl) (by decide)
      (by
        intro d hd pgs hOk pg hm
        have hiter : iter_pdfs (envDocs [docTwoPages]) reqHello.recursive =
            [docTwoPages] := rfl
        rw [hiter] at hd
        have hd' : d = docTwoPages := by simpa using hd
        subst hd'
        have h2 : Except.ok [pageOf "aaa aaa".toList,
            pageOf "bbb bbb".toList] = Except.ok pgs := hOk
        injection h2 with h3
        subst h3
        have hm' : pg = pageOf "aaa aaa".toList ∨
            pg = pageOf "bbb bbb".toList := by simpa using hm
        rcases hm' with h | h <;> subst h <;> exact ⟨_, rfl⟩)
      (by
        intro d hd
        have hiter : iter_pdfs (envDocs [docTwoPages]) reqHello.recursive =
            [docTwoPages] := rfl
        rw [hiter] at hd
        have hd' : d = docTwoPages := by simpa using hd
        subst hd'
        exact ⟨_, rfl⟩)⟩

theorem numProgFile_append (p : List Char) (a b : List Ev) :
    numProgFile p (a ++ b) = numProgFile p a + numProgFile p b := by
  simp [numProgFile, List.countP_append]

theorem numProgFile_emitProg_self (p : List Char) (total : Nat) (st : St) :
    numProgFile p (emitProg true total (some p) st).trace =
      numProgFile p st.trace + 1 := by
  simp [emitProg, numProgFile, List.countP_append, List.countP_cons]

theorem emitProg_numProgFile_le (p : List Char) (hc : Bool) (total : Nat)
    (f : Option (List Char)) (st : St) :
    numProgFile p st.trace ≤ numProgFile p (emitProg hc total f st).trace := by
  unfold emitProg
  split
  · show numProgFile p st.trace ≤ numProgFile p (st.trace ++ _)
    rw [numProgFile_append]
    omega
  · exact Nat.le_refl _

theorem runPages_numProgFile_le (p : List Char) (pat : Pattern)
    (req : SearchReq) (env : Env) (total : Nat) (path : List Char) :
    ∀ (pages : List PageData) (i : Nat) (st : St),
      numProgFile p st.trace ≤
        numProgFile p ((runPages pat req env total path i pages st).1).trace := by
  intro pages
  induction pages with
  | nil =>
    intro i st
    exact Nat.le_refl _
  | cons pg rest ih =>
    intro i st
    rw [runPages]
    simp only [pollCancel]
    split
    · show numProgFile p st.trace ≤ numProgFile p (st.trace ++ _)
      rw [numProgFile_append]
      omega
    · split
      · show numProgFile p st.trace ≤ numProgFile p (st.trace ++ _ ++ _)
        rw [numProgFile_append, numProgFile_append]
        omega
      · split
        · split
          · show numProgFile p st.trace ≤
              numProgFile p (st.trace ++ _ ++ _ ++ _)
            rw [numProgFile_append, numProgFile_append, numProgFile_append]
            omega
          · show numProgFile p st.trace ≤ numProgFile p (st.trace ++ _ ++ _)
            rw [numProgFile_append, numProgFile_append]
            omega
        · refine Nat.le_trans ?_ (ih _ _)
          split
          · split
            · refine Nat.le_trans ?_ (emitProg_numProgFile_le p _ _ _ _)
              show numProgFile p st.trace ≤
                numProgFile p (st.trace ++ _ ++ _ ++ _)
              rw [numProgFile_append, numProgFile_append, numProgFile_append]
              omega
            · show numProgFile p st.trace ≤
                numProgFile p (st.trace ++ _ ++ _ ++ _)
              rw [numProgFile_append, numProgFile_append, numProgFile_append]
              omega
          · split
            · refine Nat.le_trans ?_ (emitProg_numProgFile_le p _ _ _ _)
              show numProgFile p st.trace ≤
                numProgFile p (st.trace ++ _ ++ _)
              rw [numProgFile_append, numProgFile_append]
              omega
            · show numProgFile p st.trace ≤
                numProgFile p (st.trace ++ _ ++ _)
              rw [numProgFile_append, numProgFile_append]
              omega

theorem runDocs_numProgFile_le (p : List Char) (pat : Pattern)
    (req : SearchReq) (env : Env) (total : Nat) :
    ∀ (ds : List DocData) (st : St),
      numProgFile p st.trace ≤
        numProgFile p (runDocs pat req env total ds st).trace := by
  intro ds
  induction ds with
  | nil =>
    intro st
    exact Nat.le_refl _
  | cons d rest ih =>
    intro st
    rw [runDocs]
    simp only [pollCancel]
    split
    · show numProgFile p st.trace ≤ numProgFile p (st.trace ++ _)
      rw [numProgFile_append]
      omega
    · split
      · refine Nat.le_trans ?_ (ih _)
        refine Nat.le_trans ?_ (emitProg_numProgFile_le p _ _ _ _)
        show numProgFile p st.trace ≤
          numProgFile p ((emitProg _ _ _ _).trace ++ _)
        rw [numProgFile_append]
        refine Nat.le_trans ?_ (Nat.le_add_right _ _)
        refine Nat.le_trans ?_ (emitProg_numProgFile_le p _ _ _ _)
        show numProgFile p st.trace ≤ numProgFile p (st.trace ++ _)
        rw [numProgFile_append]
        omega
      · refine Nat.le_trans ?_ (ih _)
        split
        · refine Nat.le_trans ?_ (emitProg_numProgFile_le p _ _ _ _)
          refine Nat.le_trans ?_
            (runPages_numProgFile_le p pat req env total d.path _ _ _)
          show numProgFile p st.trace ≤
            numProgFile p ((emitProg _ _ _ _).trace ++ _)
          rw [numProgFile_append]
          refine Nat.le_trans ?_ (Nat.le_add_right _ _)
          refine Nat.le_trans ?_ (emitProg_numProgFile_le p _ _ _ _)
          show numProgFile p st.trace ≤ numProgFile p (st.trace ++ _)
          rw [numProgFile_append]
          omega
        · refine Nat.le_trans ?_
            (runPages_numProgFile_le p pat req env total d.path _ _ _)
          show numProgFile p st.trace ≤
            numProgFile p ((emitProg _ _ _ _).trace ++ _)
          rw [numProgFile_append]
          refine Nat.le_trans ?_ (Nat.le_add_right _ _)
          refine Nat.le_trans ?_ (emitProg_numProgFile_le p _ _ _ _)
          show numProgFile p st.trace ≤ numProgFile p (st.trace ++ _)
          rw [numProgFile_append]
          omega

theorem runDocs_append (pat : Pattern) (req : SearchReq) (env : Env)
    (total : Nat) (hsc : ∀ n, env.shouldCancel n = false) :
    ∀ (a b : List DocData) (st : St),
      runDocs pat req env total (a ++ b) st =
        runDocs pat req env total b (runDocs pat req env total a st) := by
  intro a
  induction a with
  | nil => intro b st; rfl
  | cons d rest ih =>
    intro b st
    rw [List.cons_append, runDocs, runDocs]
    simp only [pollCancel, hsc, Bool.false_eq_true, if_false]
    split
    · exact ih b _
    · exact ih b _

theorem runPages_abort (pat : Pattern) (req : SearchReq) (env : Env)
    (total : Nat) (path : List Char)
    (hsc : ∀ n, env.shouldCancel n = false) :
    ∀ (good : List PageData),
      (∀ pg ∈ good, ∃ t, pg.extractResult = .ok t) →
      ∀ (badpg : PageData) (rest : List PageData),
      badpg.extractResult = .error () →
      ∀ (i : Nat) (st : St),
      (runPages pat req env total path i (good ++ badpg :: rest) st).2 =
        true := by
  intro good
  induction good with
  | nil =>
    intro _ badpg rest hb i st
    rw [List.nil_append, runPages]
    simp only [pollCancel, hsc, Bool.false_eq_true, if_false]
    rw [hb]
  | cons pg good' ih =>
    intro hg badpg rest hb i st
    obtain ⟨t, hE⟩ := hg pg (List.mem_cons_self pg good')
    have hg' : ∀ p ∈ good', ∃ t, p.extractResult = .ok t :=
      fun p hp' => hg p (List.mem_cons_of_mem pg hp')
    rw [List.cons_append, runPages]
    simp only [pollCancel, hsc, Bool.false_eq_true, if_false]
    split
    · rfl
    · rename_i text0 heq
      rw [resolve_page_text_ok req.include_ocr env.ocrAvailable pg text0 heq]
      split
      · rfl
      · rename_i text usedOcr hres
        split
        · split
          · exact ih hg' badpg rest hb _ _
          · exact ih hg' badpg rest hb _ _
        · split
          · exact ih hg' badpg rest hb _ _
          · exact ih hg' badpg rest hb _ _

/-- C4: if one document in the sorted enumeration fails — it fails to open,
or reading one of its pages raises mid-document — `search_pdfs` records the
failure and continues with the next document in sorted order: the run still
completes with an `ok` result whose matches are exactly the per-document
matches of the whole sorted list in order (matches already found — including
the failing document's pages before the failure, which `docMatches` keeps —
and matches from the documents after the bad one are all returned), and,
when a progress callback is supplied, the failure is reported: the trace
holds at least two progress snapshots naming the failing document, the
document-entry snapshot of line 156 and the `except` handler's report of
lines 190-193 — one bad document never aborts the whole run. -/
theorem c4_bad_document_never_aborts (env : Env) (req : SearchReq)
    (pat : Pattern) (bad : DocData)
    (hf : env.fitzAvailable = true) (hv : env.folderValid = true)
    (hq : pyStrip req.query ≠ [])
    (hcomp : compile_pattern env.reComp (pyStrip req.query) req.use_regex
      req.ignore_case = .ok pat)
    (hsc : ∀ n, env.shouldCancel n = false)
    (hmem : bad ∈ iter_pdfs env req.recursive)
    (hbad : bad.openResult = .error () ∨
      ∃ good badpg rest, bad.openResult = .ok (good ++ badpg :: rest) ∧
        (∀ pg ∈ good, ∃ t, pg.extractResult = .ok t) ∧
        badpg.extractResult = .error ()) :
    (search_pdfs env req).1 =
      .ok ((iter_pdfs env req.recursive).flatMap
        (docMatches req.include_ocr env.ocrAvailable pat
          req.snippet_radius)) ∧
    (env.hasProgress = true →
      2 ≤ numProgFile bad.path (search_pdfs env req).2) := by
  refine ⟨search_pdfs_matches env req pat hf hv hq hcomp hsc, ?_⟩
  intro hp
  obtain ⟨pre, post, hsplit⟩ := List.append_of_mem hmem
  rw [search_pdfs_eq env req pat hf hv hq hcomp]
  show 2 ≤ numProgFile bad.path (emitProg env.hasProgress _ none _).trace
  rw [hp, hsplit,
    runDocs_append pat req env (totalOf env req) hsc pre (bad :: post),
    runDocs]
  simp only [pollCancel, hsc, Bool.false_eq_true, if_false]
  rcases hbad with hOpen | ⟨good, badpg, rest', hOk, hgood, hbadpg⟩
  · split
    · refine Nat.le_trans ?_ (emitProg_numProgFile_le bad.path true _ none _)
      refine Nat.le_trans ?_
        (runDocs_numProgFile_le bad.path pat req env _ post _)
      simp [numProgFile, emitProg, hp, List.countP_append, List.countP_cons]
    · rename_i pages heqO
      rw [hOpen] at heqO
      exact Except.noConfusion heqO
  · split
    · rename_i e heqO
      rw [hOk] at heqO
      exact Except.noConfusion heqO
    · rename_i pages heqO
      rw [hOk] at heqO
      injection heqO with hpp
      subst hpp
      have hab := runPages_abort pat req env (totalOf env req) bad.path hsc
        good hgood badpg rest' hbadpg
      rw [hab]
      rw [if_pos rfl, hp]
      refine Nat.le_trans ?_ (emitProg_numProgFile_le bad.path true _ none _)
      refine Nat.le_trans ?_
        (runDocs_numProgFile_le bad.path pat req env _ post _)
      rw [numProgFile_emitProg_self]
      refine Nat.le_trans ?_ (Nat.add_le_add_right
        (runPages_numProgFile_le bad.path pat req env _ bad.path _ _ _) 1)
      simp [numProgFile, emitProg, hp, List.countP_append, List.countP_cons]

/-- Witness for C4, exercising the mid-document read failure: `c.pdf` opens,
its first page reads fine (and matches `hello`), its second page raises on
extraction; the run returns the matches of all three documents in sorted
order — including page 1 of the failing document — and the trace carries
exactly the two progress snapshots naming `c.pdf` (document entry and the
handler's report). -/
theorem c4_bad_document_never_aborts_witness :
    (numProgFile docReadFail.path
      (search_pdfs (envDocs [docA, docB, docReadFail]) reqHello).2 = 2) ∧
    (search_pdfs (envDocs [docA, docB, docReadFail]) reqHello).1 =
      .ok ((iter_pdfs (envDocs [docA, docB, docReadFail])
          reqHello.recursive).flatMap
        (docMatches reqHello.include_ocr
          (envDocs [docA, docB, docReadFail]).ocrAvailable
          { re := reEscape (pyStrip reqHello.query)
            ic := reqHello.ignore_case }
          reqHello.snippet_radius)) ∧
    ((envDocs [docA, docB, docReadFail]).hasProgress = true →
      2 ≤ numProgFile docReadFail.path
        (search_pdfs (envDocs [docA, docB, docReadFail]) reqHello).2) :=
  ⟨by decide,
    c4_bad_document_never_aborts (envDocs [docA, docB, docReadFail]) reqHello
      { re := reEscape (pyStrip reqHello.query), ic := reqHello.ignore_case }
      docReadFail rfl rfl (by decide) rfl (fun _ => rfl)
      (by
        rw [show iter_pdfs (envDocs [docA, docB, docReadFail])
            reqHello.recursive = [docA, docB, docReadFail] from rfl]
        exact List.mem_cons_of_mem _
          (List.mem_cons_of_mem _ (List.mem_cons_self _ _)))
      (Or.inr ⟨[pageOf "hello there".toList],
        { extractResult := .error (), ocrResult := .error () }, [], rfl,
        (fun pg hm => by
          have h : pg = pageOf "hello there".toList := by simpa using hm
          subst h
          exact ⟨_, rfl⟩), rfl⟩)⟩
